import Mathlib

/-!
# CHIP-8 interpreter (yasteen/chip-8): shallow embedding

The Go package `internal/chip8` is embedded as pure state-passing functions.

* `uint8` / `uint16` values are natural numbers; every Go operation that can
  wrap is written with an explicit `% 256` / `% 65536`.
* Go arrays are total functions from an index; every indexing operation whose
  index is not bounded by its type checks the bound and yields
  `Fault.indexOutOfRange` (the Go runtime panic) when it fails.
* `os.Exit(1)` is `Fault.exit`, the `panic("ERROR: SHOULD NOT REACH")` of
  `execute` is `Fault.unreachable`, the `panic` of `Run` after a failed
  `execute` is `Fault.commandFailed`.
* The raylib keyboard calls and `rand.Uint32` are read from an `Env` value.
-/

namespace Chip8

/-! ## Constants -/

def c_STACK_LEN : Nat := 16
def c_MEM_LEN : Nat := 4 * 1024
def c_NUM_REG : Nat := 16
def c_FONT_INDEX : Nat := 0x50
def c_SCREEN_WIDTH_PIXEL : Nat := 64
def c_SCREEN_HEIGHT_PIXEL : Nat := 32

/-! ## Data model -/

/-- Ways in which a Go call can fail to return. -/
inductive Fault where
  | indexOutOfRange
  | exit
  | unreachable
  | commandFailed
  deriving DecidableEq, Repr

/-- Go `type stack struct { data stackArray; stackPtr uint8 }`. -/
structure Stack where
  data : Nat → Nat
  stackPtr : Nat

/-- Go `type Config struct`. -/
structure Config where
  ShiftUseVY : Bool
  JumpWeird : Bool
  AddToIndexOverflow : Bool
  MemChangeIndex : Bool
  deriving DecidableEq, Repr

/-- Go `type DisplayArray [32][64]bool`, indexed row first. -/
abbrev DisplayArray := Nat → Nat → Bool

/-- Go `type rlWrapper struct`; the sound handle `beep` carries no machine
state and is left out. -/
structure RlWrapper where
  scale : Nat
  width : Int
  height : Int
  display : DisplayArray

/-- Go `type chip8 struct` (named `Machine` here because the namespace is
`Chip8`). -/
structure Machine where
  Memory : Nat → Nat
  Pc : Nat
  Index : Nat
  Stack : Stack
  DelayTimer : Nat
  SoundTimer : Nat
  V : Nat → Nat
  Rl : RlWrapper
  Config : Config

/-- The answers of the external collaborators during one cycle:
`rl.IsKeyDown`, `rl.GetKeyPressed` and `rand.Uint32`. -/
structure Env where
  isKeyDown : Int → Bool
  getKeyPressed : Int
  randUint32 : Nat

/-- Array store `a[k] = v`. -/
def setAt {α : Type} (a : Nat → α) (k : Nat) (v : α) : Nat → α :=
  fun n => if n = k then v else a n

/-- Read `c.Memory[a]`, with the Go bounds check. -/
def readMem (c : Machine) (a : Nat) : Except Fault Nat :=
  if a < c_MEM_LEN then .ok (c.Memory a) else .error .indexOutOfRange

/-- Write `c.Memory[a] = v`, with the Go bounds check. -/
def writeMem (c : Machine) (a : Nat) (v : Nat) : Except Fault Machine :=
  if a < c_MEM_LEN then .ok { c with Memory := setAt c.Memory a v }
  else .error .indexOutOfRange

/-! ## rltools.go -/

def v_FONT : List Nat :=
  [0xF0, 0x90, 0x90, 0x90, 0xF0,
   0x20, 0x60, 0x20, 0x20, 0x70,
   0xF0, 0x10, 0xF0, 0x80, 0xF0,
   0xF0, 0x10, 0xF0, 0x10, 0xF0,
   0x90, 0x90, 0xF0, 0x10, 0x10,
   0xF0, 0x80, 0xF0, 0x10, 0xF0,
   0xF0, 0x80, 0xF0, 0x90, 0xF0,
   0xF0, 0x10, 0x20, 0x40, 0x40,
   0xF0, 0x90, 0xF0, 0x90, 0xF0,
   0xF0, 0x90, 0xF0, 0x10, 0xF0,
   0xF0, 0x90, 0xF0, 0x90, 0x90,
   0xE0, 0x90, 0xE0, 0x90, 0xE0,
   0xF0, 0x80, 0x80, 0x80, 0xF0,
   0xE0, 0x90, 0x90, 0x90, 0xE0,
   0xF0, 0x80, 0xF0, 0x80, 0xF0,
   0xF0, 0x80, 0xF0, 0x80, 0x80]

/-! Key codes of the raylib binding (`rl.KeyX` and so on). -/

def KeyOne : Int := 49
def KeyTwo : Int := 50
def KeyThree : Int := 51
def KeyFour : Int := 52
def KeyA : Int := 65
def KeyC : Int := 67
def KeyD : Int := 68
def KeyE : Int := 69
def KeyF : Int := 70
def KeyQ : Int := 81
def KeyR : Int := 82
def KeyS : Int := 83
def KeyV : Int := 86
def KeyW : Int := 87
def KeyX : Int := 88
def KeyZ : Int := 90

def v_IND_TO_KEY : List Int :=
  [KeyX, KeyOne, KeyTwo, KeyThree,
   KeyQ, KeyW, KeyE, KeyA,
   KeyS, KeyD, KeyZ, KeyC,
   KeyFour, KeyR, KeyF, KeyV]

/-- Go `map[int]uint8` lookup `code, exist := v_KEY_TO_IND[k]`. -/
def v_KEY_TO_IND (k : Int) : Option Nat :=
  if k = KeyOne then some 1 else if k = KeyTwo then some 2
  else if k = KeyThree then some 3 else if k = KeyFour then some 0xC
  else if k = KeyQ then some 4 else if k = KeyW then some 5
  else if k = KeyE then some 6 else if k = KeyR then some 0xD
  else if k = KeyA then some 7 else if k = KeyS then some 0x8
  else if k = KeyD then some 0x9 else if k = KeyF then some 0xE
  else if k = KeyZ then some 0xA else if k = KeyX then some 0
  else if k = KeyC then some 0xB else if k = KeyV then some 0xF
  else none

def NewRlWrapper (scale : Nat) : RlWrapper :=
  { scale := scale
    width := (scale : Int) * c_SCREEN_WIDTH_PIXEL
    height := (scale : Int) * c_SCREEN_HEIGHT_PIXEL
    display := fun _ _ => false }

/-- The body of the `for i := uint8(0); i < 8; i++` loop of `drawRow`, run for
the `rem` iterations that are left, starting at column offset `i`.  The
accumulator is the display together with `flag`. -/
def drawRowLoop (spriteRow x y : Nat) :
    Nat → Nat → DisplayArray × Bool → Except Fault (DisplayArray × Bool)
  | 0, _, acc => .ok acc
  | rem + 1, i, (display, flag) =>
    if (x + i) % 256 ≥ c_SCREEN_WIDTH_PIXEL then .ok (display, flag)
    else
      let spriteData := decide ((spriteRow >>> (7 - i)) &&& 0x1 = 0x1)
      if y < c_SCREEN_HEIGHT_PIXEL then
        let displayData := display y ((x + i) % 256)
        let flag1 := flag || (spriteData && displayData)
        let display1 := setAt display y
          (setAt (display y) ((x + i) % 256) (spriteData != displayData))
        drawRowLoop spriteRow x y rem ((i + 1) % 256) (display1, flag1)
      else .error .indexOutOfRange

/-- Go `func (r *rlWrapper) drawRow(spriteRow, x, y uint8) bool`: the new
display and the returned collision flag. -/
def drawRow (display : DisplayArray) (spriteRow x y : Nat) :
    Except Fault (DisplayArray × Bool) :=
  drawRowLoop spriteRow x y 8 0 (display, false)

/-! ## chip8.go -/

def DefaultConfig : Config :=
  { ShiftUseVY := true
    JumpWeird := false
    AddToIndexOverflow := false
    MemChangeIndex := false }

/-- Go `func (c *chip8) reset()`. -/
def reset (c : Machine) : Machine :=
  { c with
    Memory := fun _ => 0
    Pc := 0
    Index := 0
    Stack := { data := fun _ => 0, stackPtr := c_STACK_LEN - 1 }
    DelayTimer := 0
    SoundTimer := 0
    V := fun _ => 0
    Rl := NewRlWrapper c.Rl.scale }

/-- Go `func NewChip8(r rlWrapper) chip8`: `chip8{Rl: r}` has every other
field at its zero value. -/
def NewChip8 (r : RlWrapper) : Machine :=
  reset
    { Memory := fun _ => 0
      Pc := 0
      Index := 0
      Stack := { data := fun _ => 0, stackPtr := 0 }
      DelayTimer := 0
      SoundTimer := 0
      V := fun _ => 0
      Rl := r
      Config := { ShiftUseVY := false, JumpWeird := false,
                  AddToIndexOverflow := false, MemChangeIndex := false } }

/-- One iteration of the `for true` loop of `DecrementTimers` (the sleep
aside). -/
def decrementTimersStep (c : Machine) : Machine :=
  let c1 := if c.DelayTimer ≠ 0 then
    { c with DelayTimer := (c.DelayTimer + 255) % 256 } else c
  if c1.SoundTimer ≠ 0 then
    { c1 with SoundTimer := (c1.SoundTimer + 255) % 256 } else c1

/-- Go `func (c *chip8) fetch() uint16`. -/
def fetch (c : Machine) : Except Fault Nat := do
  let hi ← readMem c c.Pc
  let lo ← readMem c ((c.Pc + 1) % 65536)
  pure (((hi <<< 8) % 65536 + lo) % 65536)

/-- Go `func isValidInstruction(i uint16) bool`. -/
def isValidInstruction (i : Nat) : Bool :=
  let opcode := i >>> 12
  let iF00F := i &&& 0xF00F
  let iF0FF := i &&& 0xF0FF
  if (opcode ≥ 1 && opcode ≤ 4) || opcode == 6 || opcode == 7
      || (opcode ≥ 0xA && opcode ≤ 0xD) then
    true
  else
    i == 0x00E0 || i == 0x00EE ||
    iF00F == 0x5000 ||
    (opcode == 8 && (decide (i &&& 0xF ≤ 0x7) || i &&& 0xF == 0xE)) ||
    iF00F == 0x9000 ||
    iF0FF == 0xE09E || iF0FF == 0xE0A1 ||
    iF0FF == 0xF007 || iF0FF == 0xF015 || iF0FF == 0xF018 ||
    iF0FF == 0xF01E || iF0FF == 0xF00A || iF0FF == 0xF029 ||
    iF0FF == 0xF033 || iF0FF == 0xF055 || iF0FF == 0xF065

/-- Go `func (s *stack) push(addr uint16)`. -/
def push (s : Stack) (addr : Nat) : Except Fault Stack :=
  if s.stackPtr < c_STACK_LEN then
    .ok { data := setAt s.data s.stackPtr addr
          stackPtr := (s.stackPtr + 255) % 256 }
  else .error .indexOutOfRange

/-- Go `func (s *stack) pop() uint16`: the new stack and the popped value. -/
def pop (s : Stack) : Except Fault (Stack × Nat) :=
  let p := (s.stackPtr + 1) % 256
  if p < c_STACK_LEN then .ok ({ s with stackPtr := p }, s.data p)
  else .error .indexOutOfRange

/-! ## execute.go -/

/-- Go `i_clearScreen` (00E0). -/
def i_clearScreen (c : Machine) : Machine :=
  { c with Rl := { c.Rl with display := fun _ _ => false } }

/-- Go `i_jump` (1NNN). -/
def i_jump (c : Machine) (i : Nat) : Machine :=
  { c with Pc := i &&& 0x0FFF }

/-- Go `i_subroutine` (2NNN). -/
def i_subroutine (c : Machine) (i : Nat) : Except Fault Machine := do
  let s ← push c.Stack c.Pc
  pure { c with Stack := s, Pc := i &&& 0x0FFF }

/-- Go `i_ret` (00EE). -/
def i_ret (c : Machine) : Except Fault Machine := do
  let (s, addr) ← pop c.Stack
  pure { c with Stack := s, Pc := addr }

/-- Go `i_skipIfEqualNN` (3XNN). -/
def i_skipIfEqualNN (c : Machine) (i : Nat) : Machine :=
  let x := c.V ((i >>> 8) &&& 0xF)
  let nn := (i &&& 0xFF) % 256
  if x = nn then { c with Pc := (c.Pc + 2) % 65536 } else c

/-- Go `i_skipIfNotEqualNN` (4XNN). -/
def i_skipIfNotEqualNN (c : Machine) (i : Nat) : Machine :=
  let x := c.V ((i >>> 8) &&& 0xF)
  let nn := (i &&& 0xFF) % 256
  if x ≠ nn then { c with Pc := (c.Pc + 2) % 65536 } else c

/-- Go `i_skipIfEqualReg` (5XY0). -/
def i_skipIfEqualReg (c : Machine) (i : Nat) : Machine :=
  let x := c.V ((i >>> 8) &&& 0xF)
  let y := c.V ((i >>> 4) &&& 0xF)
  if x = y then { c with Pc := (c.Pc + 2) % 65536 } else c

/-- Go `i_skipIfNotEqualReg` (9XY0). -/
def i_skipIfNotEqualReg (c : Machine) (i : Nat) : Machine :=
  let x := c.V ((i >>> 8) &&& 0xF)
  let y := c.V ((i >>> 4) &&& 0xF)
  if x ≠ y then { c with Pc := (c.Pc + 2) % 65536 } else c

/-- Go `i_setRegister` (6XNN). -/
def i_setRegister (c : Machine) (i : Nat) : Machine :=
  let x := (i >>> 8) &&& 0xF
  { c with V := setAt c.V x ((i &&& 0xFF) % 256) }

/-- Go `i_addToRegister` (7XNN). -/
def i_addToRegister (c : Machine) (i : Nat) : Machine :=
  let x := (i >>> 8) &&& 0xF
  { c with V := setAt c.V x ((c.V x + (i &&& 0xFF) % 256) % 256) }

/-- The flag store `c.V[0xF] = 1` / `c.V[0xF] = 0` chosen by `b`. -/
def setFlag (c : Machine) (b : Bool) : Machine :=
  if b then { c with V := setAt c.V 0xF 1 } else { c with V := setAt c.V 0xF 0 }

/-- Go `i_aluOp` (8XYI). -/
def i_aluOp (c : Machine) (i : Nat) : Machine :=
  let xReg := (i >>> 8) &&& 0xF
  let yReg := (i >>> 4) &&& 0xF
  let x := c.V xReg
  let y := c.V yReg
  let operation := i &&& 0xF
  if operation = 0 then
    { c with V := setAt c.V xReg y }
  else if operation = 1 then
    { c with V := setAt c.V xReg (c.V xReg ||| y) }
  else if operation = 2 then
    { c with V := setAt c.V xReg (c.V xReg &&& y) }
  else if operation = 3 then
    { c with V := setAt c.V xReg (c.V xReg ^^^ y) }
  else if operation = 4 then
    let c1 := setFlag c (decide ((x + y) % 65536 > 0xFF))
    { c1 with V := setAt c1.V xReg ((c1.V xReg + y) % 256) }
  else if operation = 5 then
    let c1 := setFlag c (decide (x > y))
    { c1 with V := setAt c1.V xReg ((x + 256 - y) % 256) }
  else if operation = 7 then
    let c1 := setFlag c (decide (y > x))
    { c1 with V := setAt c1.V xReg ((y + 256 - x) % 256) }
  else if operation = 6 then
    let c1 := if c.Config.ShiftUseVY then { c with V := setAt c.V xReg y } else c
    let c2 := { c1 with V := setAt c1.V 0xF (c1.V xReg &&& 0x1) }
    { c2 with V := setAt c2.V xReg (c2.V xReg >>> 1) }
  else if operation = 0xE then
    let c1 := if c.Config.ShiftUseVY then { c with V := setAt c.V xReg y } else c
    let c2 := { c1 with V := setAt c1.V 0xF ((c1.V xReg >>> 7) &&& 0x1) }
    { c2 with V := setAt c2.V xReg ((c2.V xReg <<< 1) % 256) }
  else c

/-- Go `i_setIndexRegister` (ANNN). -/
def i_setIndexRegister (c : Machine) (i : Nat) : Machine :=
  { c with Index := i &&& 0x0FFF }

/-- Go `i_jumpWithOffset` (BNNN). -/
def i_jumpWithOffset (c : Machine) (i : Nat) : Machine :=
  let nnn := i &&& 0x0FFF
  let nnn1 :=
    if c.Config.JumpWeird then (nnn + c.V (nnn >>> 8)) % 65536
    else (nnn + c.V 0) % 65536
  { c with Pc := nnn1 }

/-- Go `i_randAndNum` (CXNN). -/
def i_randAndNum (env : Env) (c : Machine) (i : Nat) : Machine :=
  let x := (i >>> 8) &&& 0xF
  let nn := (i &&& 0xFF) % 256
  { c with V := setAt c.V x ((env.randUint32 % 256) &&& nn) }

/-- The `for j := uint8(0); j < n; j++` loop of `i_display`, run for the `rem`
iterations that are left, starting at row offset `j`.  The accumulator is the
display together with `overflow`. -/
def displayLoop (c : Machine) (x y : Nat) :
    Nat → Nat → DisplayArray × Bool → Except Fault (DisplayArray × Bool)
  | 0, _, acc => .ok acc
  | rem + 1, j, (display, overflow) =>
    if (y + j) % 256 ≥ c_SCREEN_HEIGHT_PIXEL then .ok (display, overflow)
    else do
      let spriteData ← readMem c ((c.Index + j) % 65536)
      let (display1, rowOverflow) ← drawRow display spriteData x ((y + j) % 256)
      displayLoop c x y rem ((j + 1) % 256) (display1, rowOverflow || overflow)

/-- Go `i_display` (DXYN). -/
def i_display (c : Machine) (i : Nat) : Except Fault Machine := do
  let xReg := ((i >>> 8) &&& 0xF) % 256
  let yReg := ((i >>> 4) &&& 0xF) % 256
  let x := c.V xReg % c_SCREEN_WIDTH_PIXEL
  let y := c.V yReg % c_SCREEN_HEIGHT_PIXEL
  let n := (i &&& 0xF) % 256
  let (display, overflow) ← displayLoop c x y n 0 (c.Rl.display, false)
  pure (setFlag { c with Rl := { c.Rl with display := display } } overflow)

/-- Go `i_skipIfKeyDown` (EX9E, EXA1). -/
def i_skipIfKeyDown (env : Env) (c : Machine) (i : Nat) : Except Fault Machine :=
  let x := c.V ((i >>> 8) &&& 0xF)
  if x > 0xF then .error .exit
  else
    let isKeyPressed := env.isKeyDown (v_IND_TO_KEY.getD x 0)
    let trueIfDown := decide (i &&& 0xFF = 0x9E)
    if isKeyPressed = trueIfDown then .ok { c with Pc := (c.Pc + 2) % 65536 }
    else .ok c

/-- Go `i_timer` (FX07, FX15, FX18). -/
def i_timer (c : Machine) (x cmd : Nat) : Machine :=
  if cmd = 0x07 then { c with V := setAt c.V x c.DelayTimer }
  else if cmd = 0x15 then { c with DelayTimer := c.V x }
  else { c with SoundTimer := c.V x }

/-- Go `i_addToIndex` (FX1E). -/
def i_addToIndex (c : Machine) (x : Nat) : Machine :=
  let c1 := { c with Index := (c.Index + c.V x) % 65536 }
  if c1.Config.AddToIndexOverflow then setFlag c1 (decide (c1.Index > 0xFFF))
  else c1

/-- Go `i_getKey` (FX0A). -/
def i_getKey (env : Env) (c : Machine) (x : Nat) : Machine :=
  let latestKey := env.getKeyPressed
  match v_KEY_TO_IND latestKey with
  | some code =>
    if env.isKeyDown latestKey then { c with V := setAt c.V x code }
    else { c with Pc := (c.Pc + 65534) % 65536 }
  | none => { c with Pc := (c.Pc + 65534) % 65536 }

/-- Go `i_mvIndexToFontChar` (FX29). -/
def i_mvIndexToFontChar (c : Machine) (x : Nat) : Except Fault Machine :=
  let valX := c.V x
  if valX > 0xF then .error .exit
  else .ok { c with Index := (c_FONT_INDEX + (5 * valX) % 256) % 65536 }

/-- Go `i_binaryCodedDecimalConversion` (FX33). -/
def i_binaryCodedDecimalConversion (c : Machine) (x : Nat) : Except Fault Machine := do
  let xVal := c.V x
  let c1 ← writeMem c ((c.Index + 0) % 65536) ((xVal / 100) % 10)
  let c2 ← writeMem c1 ((c1.Index + 1) % 65536) ((xVal / 10) % 10)
  writeMem c2 ((c2.Index + 2) % 65536) (xVal % 10)

/-- The `for i := uint8(0); i <= x; i++` loop of `i_storeMem`, run for the
`rem` iterations that are left, starting at register `i`. -/
def storeMemLoop : Nat → Nat → Machine → Except Fault Machine
  | 0, _, c => .ok c
  | rem + 1, i, c => do
    let c1 ← writeMem c ((c.Index + i) % 65536) (c.V i)
    storeMemLoop rem ((i + 1) % 256) c1

/-- Go `i_storeMem` (FX55); `x` is a register selector, so the loop runs
`x + 1` times. -/
def i_storeMem (c : Machine) (x : Nat) : Except Fault Machine := do
  let c1 ← storeMemLoop (x + 1) 0 c
  if c1.Config.MemChangeIndex then
    pure { c1 with Index := (c1.Index + (x + 1) % 256) % 65536 }
  else pure c1

/-- The `for i := uint8(0); i <= x; i++` loop of `i_loadMem`, run for the
`rem` iterations that are left, starting at register `i`. -/
def loadMemLoop : Nat → Nat → Machine → Except Fault Machine
  | 0, _, c => .ok c
  | rem + 1, i, c => do
    let v ← readMem c ((c.Index + i) % 65536)
    loadMemLoop rem ((i + 1) % 256) { c with V := setAt c.V i v }

/-- Go `i_loadMem` (FX65); `x` is a register selector, so the loop runs
`x + 1` times. -/
def i_loadMem (c : Machine) (x : Nat) : Except Fault Machine := do
  let c1 ← loadMemLoop (x + 1) 0 c
  if c1.Config.MemChangeIndex then
    pure { c1 with Index := (c1.Index + (x + 1) % 256) % 65536 }
  else pure c1

/-- The `switch opcode` of `execute`, entered after `c.Pc += 2`. -/
def dispatch (env : Env) (c : Machine) (i : Nat) : Except Fault Machine :=
  let opcode := i >>> 12
  if opcode = 0 then
    if i = 0x00E0 then .ok (i_clearScreen c) else i_ret c
  else if opcode = 1 then .ok (i_jump c i)
  else if opcode = 2 then i_subroutine c i
  else if opcode = 3 then .ok (i_skipIfEqualNN c i)
  else if opcode = 4 then .ok (i_skipIfNotEqualNN c i)
  else if opcode = 5 then .ok (i_skipIfEqualReg c i)
  else if opcode = 9 then .ok (i_skipIfNotEqualReg c i)
  else if opcode = 6 then .ok (i_setRegister c i)
  else if opcode = 7 then .ok (i_addToRegister c i)
  else if opcode = 8 then .ok (i_aluOp c i)
  else if opcode = 0xA then .ok (i_setIndexRegister c i)
  else if opcode = 0xB then .ok (i_jumpWithOffset c i)
  else if opcode = 0xC then .ok (i_randAndNum env c i)
  else if opcode = 0xD then i_display c i
  else if opcode = 0xE then i_skipIfKeyDown env c i
  else if opcode = 0xF then
    let x := ((i >>> 8) &&& 0xF) % 256
    let cmd := (i &&& 0xFF) % 256
    if cmd = 0x07 ∨ cmd = 0x15 ∨ cmd = 0x18 then .ok (i_timer c x cmd)
    else if cmd = 0x1E then .ok (i_addToIndex c x)
    else if cmd = 0x0A then .ok (i_getKey env c x)
    else if cmd = 0x29 then i_mvIndexToFontChar c x
    else if cmd = 0x33 then i_binaryCodedDecimalConversion c x
    else if cmd = 0x55 then i_storeMem c x
    else if cmd = 0x65 then i_loadMem c x
    else .ok c
  else .error .unreachable

/-- Go `func (c *chip8) execute(i uint16) bool`: the machine after the call
and the returned boolean. -/
def execute (env : Env) (c : Machine) (i : Nat) : Except Fault (Machine × Bool) :=
  if !isValidInstruction i then .ok (c, false)
  else do
    let c1 ← dispatch env { c with Pc := (c.Pc + 2) % 65536 } i
    pure (c1, true)

/-- The statements of `Run` between reading the ROM and the cycle loop:
`copy(c.Memory[c_FONT_INDEX:c_FONT_INDEX+0x50], v_FONT[:])`,
`copy(c.Memory[0x200:], program)` and `c.Pc = 0x200`.  Go `copy` moves as many
elements as the shorter of the two slices holds. -/
def runSetup (c : Machine) (program : List Nat) : Machine :=
  let m1 : Nat → Nat := fun a =>
    if c_FONT_INDEX ≤ a ∧ a < c_FONT_INDEX + 0x50 then v_FONT.getD (a - c_FONT_INDEX) 0
    else c.Memory a
  let m2 : Nat → Nat := fun a =>
    if 0x200 ≤ a ∧ a < c_MEM_LEN ∧ a - 0x200 < program.length
    then program.getD (a - 0x200) 0
    else m1 a
  { c with Memory := m2, Pc := 0x200 }

/-- One iteration of the `for true` loop of `Run`: fetch, execute, and the
`panic` when `execute` returns false.  Starting and stopping the tone and the
sleep change no machine state. -/
def runCycle (env : Env) (c : Machine) : Except Fault Machine := do
  let instruction ← fetch c
  let (c1, ok) ← execute env c instruction
  if !ok then .error .commandFailed else pure c1

/-! ## Specification-side definitions -/

/-- The documented bit patterns of a valid instruction word, following the
wording of the decoder table of the specification. -/
def documentedPattern (i : Nat) : Prop :=
  let top := i / 4096
  let lowNibble := i % 16
  let lowByte := i % 256
  top ∈ [1, 2, 3, 4, 6, 7, 0xA, 0xB, 0xC, 0xD]
  ∨ i = 0x00E0 ∨ i = 0x00EE
  ∨ i &&& 0xF00F = 0x5000 ∨ i &&& 0xF00F = 0x9000
  ∨ (top = 8 ∧ (lowNibble ≤ 7 ∨ lowNibble = 0xE))
  ∨ (top = 0xE ∧ (lowByte = 0x9E ∨ lowByte = 0xA1))
  ∨ (top = 0xF ∧ lowByte ∈ [0x07, 0x0A, 0x15, 0x18, 0x1E, 0x29, 0x33, 0x55, 0x65])

/-- A collaborator environment in which no key is down. -/
def quietEnv : Env :=
  { isKeyDown := fun _ => false, getKeyPressed := 0, randUint32 := 0 }

/-- The machine returned by `NewChip8`, with the given registers and quirk
configuration put in place. -/
def machineWith (V : Nat → Nat) (cfg : Config) : Machine :=
  { NewChip8 (NewRlWrapper 1) with V := V, Config := cfg }

/-- Registers with VF = 10 and V0 = 5, the others 0. -/
def regsF10 : Nat → Nat := fun r => if r = 15 then 10 else if r = 0 then 5 else 0

/-- Registers with V0 = 3, the others 0. -/
def regsV0_3 : Nat → Nat := fun r => if r = 0 then 3 else 0

/-- A machine with delay timer 3 and sound timer 200. -/
def timerMachine : Machine :=
  { NewChip8 (NewRlWrapper 1) with DelayTimer := 3, SoundTimer := 200 }

/-- Registers with V0 = 156, the others 0. -/
def regsV0_156 : Nat → Nat := fun r => if r = 0 then 156 else 0

/-- The machine of the display example: V0 = 60, every other register 0,
Index = 0 and the sprite byte 0xFF at address 0, on an unlit buffer. -/
def spriteMachine : Machine :=
  { NewChip8 (NewRlWrapper 1) with
    V := fun r => if r = 0 then 60 else 0
    Memory := fun a => if a = 0 then 0xFF else 0 }

/-- The pushes `s.push(a)` for the addresses of a list, first to last. -/
def pushAll : Stack → List Nat → Except Fault Stack
  | s, [] => .ok s
  | s, a :: rest => do
    let s1 ← push s a
    pushAll s1 rest

/-- The result of `n` calls of `s.pop()` in a row: the stack left and the
popped addresses, first popped first. -/
def popN : Nat → Stack → Except Fault (Stack × List Nat)
  | 0, s => .ok (s, [])
  | n + 1, s => do
    let (s1, xs) ← popN n s
    let (s2, x) ← pop s1
    pure (s2, xs ++ [x])

/-- The stack of a machine returned by `NewChip8`. -/
def initialStack : Stack := (NewChip8 (NewRlWrapper 1)).Stack

/-- A freshly loaded program: `NewChip8` followed by the set-up of `Run`. -/
def loaded (program : List Nat) : Machine :=
  runSetup (NewChip8 (NewRlWrapper 1)) program

/-- Registers with V0 = 0xA, the others 0. -/
def regsV0_A : Nat → Nat := fun r => if r = 0 then 0xA else 0

/-- A collaborator environment in which the key `W` (mapped to 5) is the
latest key pressed and is held down. -/
def keyWEnv : Env :=
  { isKeyDown := fun k => decide (k = KeyW), getKeyPressed := KeyW, randUint32 := 0 }

/-- A run of executed instructions in which the calls `2NNN` and the returns
`00EE` are balanced: nothing; or an executed instruction that is neither a
call nor a return, followed by a balanced run; or an executed call, a balanced
run, an executed return and another balanced run.  Every `execute` in the run
returns true; the collaborators may answer differently at every step. -/
inductive BalancedRun : Machine → Machine → Prop where
  | done (c : Machine) : BalancedRun c c
  | other (env : Env) (w : Nat) (c c1 c2 : Machine) :
      w < 65536 → w / 4096 ≠ 2 → w ≠ 0x00EE →
      execute env c w = .ok (c1, true) → BalancedRun c1 c2 → BalancedRun c c2
  | call (env1 env2 : Env) (w : Nat) (c c1 c2 c3 c4 : Machine) :
      w < 65536 → w / 4096 = 2 →
      execute env1 c w = .ok (c1, true) → BalancedRun c1 c2 →
      execute env2 c2 0x00EE = .ok (c3, true) → BalancedRun c3 c4 →
      BalancedRun c c4

/-! ## Instruction word fields -/

theorem shr12_eq (w : Nat) : w >>> 12 = w / 4096 :=
  Nat.shiftRight_eq_div_pow w 12

theorem shr8_eq (w : Nat) : w >>> 8 = w / 256 :=
  Nat.shiftRight_eq_div_pow w 8

theorem shr4_eq (w : Nat) : w >>> 4 = w / 16 :=
  Nat.shiftRight_eq_div_pow w 4

theorem fieldN_eq (w : Nat) : w &&& 0xF = w % 16 :=
  Nat.and_pow_two_sub_one_eq_mod _ 4

theorem fieldNN_eq (w : Nat) : w &&& 0xFF = w % 256 :=
  Nat.and_pow_two_sub_one_eq_mod _ 8

theorem fieldNNN_eq (w : Nat) : w &&& 0x0FFF = w % 4096 :=
  Nat.and_pow_two_sub_one_eq_mod _ 12

theorem and_mask_split (i m : Nat) :
    i &&& m = 4096 * ((i >>> 12) &&& (m >>> 12)) + (i &&& (m &&& 0xFFF)) := by
  have h := Nat.div_add_mod (i &&& m) 4096
  have h1 : (i &&& m) / 4096 = (i >>> 12) &&& (m >>> 12) := by
    rw [← Nat.shiftRight_eq_div_pow _ 12]
    apply Nat.eq_of_testBit_eq
    intro j
    simp [Nat.testBit_shiftRight, Nat.testBit_and]
  have h2 : (i &&& m) % 4096 = i &&& (m &&& 0xFFF) := by
    rw [← Nat.and_assoc]
    exact (Nat.and_pow_two_sub_one_eq_mod _ 12).symm
  omega

theorem and_F00F (i : Nat) :
    i &&& 0xF00F = 4096 * ((i / 4096) % 16) + i % 16 := by
  have h := and_mask_split i 0xF00F
  have a1 : (0xF00F : Nat) >>> 12 = 0xF := by decide
  have a2 : (0xF00F : Nat) &&& 0xFFF = 0xF := by decide
  rw [a1, a2] at h
  have b1 : (i >>> 12) &&& 0xF = (i / 4096) % 16 := by
    rw [Nat.shiftRight_eq_div_pow]; exact Nat.and_pow_two_sub_one_eq_mod _ 4
  have b2 := fieldN_eq i
  omega

theorem and_F0FF (i : Nat) :
    i &&& 0xF0FF = 4096 * ((i / 4096) % 16) + i % 256 := by
  have h := and_mask_split i 0xF0FF
  have a1 : (0xF0FF : Nat) >>> 12 = 0xF := by decide
  have a2 : (0xF0FF : Nat) &&& 0xFFF = 0xFF := by decide
  rw [a1, a2] at h
  have b1 : (i >>> 12) &&& 0xF = (i / 4096) % 16 := by
    rw [Nat.shiftRight_eq_div_pow]; exact Nat.and_pow_two_sub_one_eq_mod _ 4
  have b2 := fieldNN_eq i
  omega

/-- The decoder in arithmetic form: the validity test written with the top
nibble, the low nibble and the low byte of the word. -/
theorem isValidInstruction_arith (i : Nat) (hi : i < 65536) :
    isValidInstruction i = true ↔
      (i / 4096 ∈ [1, 2, 3, 4, 6, 7, 0xA, 0xB, 0xC, 0xD]
      ∨ i = 0x00E0 ∨ i = 0x00EE
      ∨ (i / 4096 = 5 ∧ i % 16 = 0) ∨ (i / 4096 = 9 ∧ i % 16 = 0)
      ∨ (i / 4096 = 8 ∧ (i % 16 ≤ 7 ∨ i % 16 = 0xE))
      ∨ (i / 4096 = 0xE ∧ (i % 256 = 0x9E ∨ i % 256 = 0xA1))
      ∨ (i / 4096 = 0xF ∧
          i % 256 ∈ [0x07, 0x0A, 0x15, 0x18, 0x1E, 0x29, 0x33, 0x55, 0x65])) := by
  have e1 := shr12_eq i
  have e2 := fieldN_eq i
  unfold isValidInstruction
  simp only [and_F00F, and_F0FF, e1, e2]
  simp only [ge_iff_le, Bool.or_eq_true, Bool.and_eq_true, decide_eq_true_eq, beq_iff_eq,
    List.mem_cons, List.mem_singleton, List.not_mem_nil, or_false, ite_eq_left_iff,
    Bool.not_eq_true]
  have ha : i / 4096 < 16 := by omega
  interval_cases h : i / 4096 <;> simp <;> omega

/-! ## C1: the decoder accepts exactly the documented patterns -/

/-- C1: for every 16-bit word, `isValidInstruction` is true exactly when the
word matches one of the documented bit patterns; every other word is
rejected. -/
theorem isValidInstruction_iff_documentedPattern (i : Nat) (hi : i < 65536) :
    isValidInstruction i = true ↔ documentedPattern i := by
  rw [isValidInstruction_arith i hi]
  unfold documentedPattern
  simp only [and_F00F, List.mem_cons, List.mem_singleton, List.not_mem_nil, or_false]
  have ha : i / 4096 < 16 := by omega
  interval_cases h : i / 4096 <;> simp <;> omega

/-- C1 at the word `8AB4`, which is accepted, and the theorem applied to it. -/
theorem isValidInstruction_iff_documentedPattern_witness :
    (0x8AB4 : Nat) < 65536 ∧
      (isValidInstruction 0x8AB4 = true ↔ documentedPattern 0x8AB4) :=
  ⟨by decide, isValidInstruction_iff_documentedPattern 0x8AB4 (by decide)⟩

/-! ## Generic facts about `execute` -/

theorem setAt_same {α : Type} (a : Nat → α) (k : Nat) (v : α) : setAt a k v k = v := by
  simp [setAt]

theorem setAt_ne {α : Type} (a : Nat → α) (k n : Nat) (v : α) (h : n ≠ k) :
    setAt a k v n = a n := by
  simp [setAt, h]

theorem execute_invalid (env : Env) (c : Machine) (i : Nat)
    (h : isValidInstruction i = false) : execute env c i = .ok (c, false) := by
  simp [execute, h]

theorem execute_valid (env : Env) (c : Machine) (i : Nat)
    (h : isValidInstruction i = true) :
    execute env c i =
      match dispatch env { c with Pc := (c.Pc + 2) % 65536 } i with
      | .ok c1 => .ok (c1, true)
      | .error e => .error e := by
  simp only [execute, h, Bool.not_true, Bool.false_eq_true, if_false]
  cases dispatch env { c with Pc := (c.Pc + 2) % 65536 } i <;> rfl

/-! ## C2: an invalid word makes `execute` return false and change nothing -/

/-- C2: `execute` returns false exactly when `isValidInstruction` is false,
and the machine it leaves is then the machine it was given (program counter
included): `execute` yields `(c', false)` iff the word is invalid and
`c' = c`. -/
theorem execute_false_iff (env : Env) (c c' : Machine) (i : Nat) :
    execute env c i = .ok (c', false) ↔ (isValidInstruction i = false ∧ c' = c) := by
  cases h : isValidInstruction i
  · rw [execute_invalid env c i h]
    constructor
    · intro h1
      injection h1 with h2
      injection h2 with h3
      exact ⟨rfl, h3.symm⟩
    · rintro ⟨-, rfl⟩
      rfl
  · rw [execute_valid env c i h]
    cases dispatch env { c with Pc := (c.Pc + 2) % 65536 } i <;> simp

/-! ## The arithmetic and logic instructions `8XYI` -/

theorem execute_aluOp (env : Env) (c : Machine) (w : Nat) (hw : w < 65536)
    (hop : w / 4096 = 8) (hk : w % 16 ≤ 7 ∨ w % 16 = 0xE) :
    execute env c w = .ok (i_aluOp { c with Pc := (c.Pc + 2) % 65536 } w, true) := by
  have hv : isValidInstruction w = true := by
    rw [isValidInstruction_arith w hw]
    right; right; right; right; right; left
    exact ⟨hop, hk⟩
  rw [execute_valid env c w hv]
  simp [dispatch, shr12_eq, hop]

theorem setFlag_V (c : Machine) (b : Bool) :
    (setFlag c b).V = setAt c.V 0xF (if b then 1 else 0) := by
  cases b <;> rfl

theorem i_aluOp_V_add (c : Machine) (w : Nat) (h : w % 16 = 4) :
    (i_aluOp c w).V =
      setAt (setAt c.V 0xF
          (if (c.V (w / 256 % 16) + c.V (w / 16 % 16)) % 65536 > 0xFF then 1 else 0))
        (w / 256 % 16)
        ((setAt c.V 0xF
            (if (c.V (w / 256 % 16) + c.V (w / 16 % 16)) % 65536 > 0xFF then 1 else 0)
            (w / 256 % 16) + c.V (w / 16 % 16)) % 256) := by
  simp only [i_aluOp]
  simp only [shr8_eq, shr4_eq, fieldN_eq, h]
  simp [setFlag_V]

theorem i_aluOp_V_sub (c : Machine) (w : Nat) (h : w % 16 = 5) :
    (i_aluOp c w).V =
      setAt (setAt c.V 0xF (if c.V (w / 256 % 16) > c.V (w / 16 % 16) then 1 else 0))
        (w / 256 % 16) ((c.V (w / 256 % 16) + 256 - c.V (w / 16 % 16)) % 256) := by
  simp only [i_aluOp]
  simp only [shr8_eq, shr4_eq, fieldN_eq, h]
  simp [setFlag_V]

theorem i_aluOp_V_subn (c : Machine) (w : Nat) (h : w % 16 = 7) :
    (i_aluOp c w).V =
      setAt (setAt c.V 0xF (if c.V (w / 16 % 16) > c.V (w / 256 % 16) then 1 else 0))
        (w / 256 % 16) ((c.V (w / 16 % 16) + 256 - c.V (w / 256 % 16)) % 256) := by
  simp only [i_aluOp]
  simp only [shr8_eq, shr4_eq, fieldN_eq, h]
  simp [setFlag_V]

theorem i_aluOp_V_shr (c : Machine) (w : Nat) (h : w % 16 = 6) :
    (i_aluOp c w).V =
      setAt (setAt (if c.Config.ShiftUseVY then setAt c.V (w / 256 % 16) (c.V (w / 16 % 16))
                    else c.V) 0xF
              ((if c.Config.ShiftUseVY then setAt c.V (w / 256 % 16) (c.V (w / 16 % 16))
                    else c.V) (w / 256 % 16) % 2))
        (w / 256 % 16)
        (setAt (if c.Config.ShiftUseVY then setAt c.V (w / 256 % 16) (c.V (w / 16 % 16))
                    else c.V) 0xF
              ((if c.Config.ShiftUseVY then setAt c.V (w / 256 % 16) (c.V (w / 16 % 16))
                    else c.V) (w / 256 % 16) % 2) (w / 256 % 16) / 2) := by
  simp only [i_aluOp]
  simp only [shr8_eq, shr4_eq, fieldN_eq, h]
  cases c.Config.ShiftUseVY <;> simp [Nat.shiftRight_eq_div_pow]

theorem i_aluOp_V_shl (c : Machine) (w : Nat) (h : w % 16 = 0xE) :
    (i_aluOp c w).V =
      setAt (setAt (if c.Config.ShiftUseVY then setAt c.V (w / 256 % 16) (c.V (w / 16 % 16))
                    else c.V) 0xF
              ((if c.Config.ShiftUseVY then setAt c.V (w / 256 % 16) (c.V (w / 16 % 16))
                    else c.V) (w / 256 % 16) / 128 % 2))
        (w / 256 % 16)
        (setAt (if c.Config.ShiftUseVY then setAt c.V (w / 256 % 16) (c.V (w / 16 % 16))
                    else c.V) 0xF
              ((if c.Config.ShiftUseVY then setAt c.V (w / 256 % 16) (c.V (w / 16 % 16))
                    else c.V) (w / 256 % 16) / 128 % 2) (w / 256 % 16) * 2 % 256) := by
  simp only [i_aluOp]
  simp only [shr8_eq, shr4_eq, fieldN_eq, h]
  cases c.Config.ShiftUseVY <;> simp [Nat.shiftRight_eq_div_pow, Nat.shiftLeft_eq]

/-! ## C3: `8XY4` -/

/-- C3, as amended: for `X` in 0..14 and `Y` in 0..15, executing `8XY4`
succeeds and leaves VF = 1 if old VX + old VY > 255, VF = 0 otherwise, and
VX = (old VX + old VY) mod 256. -/
theorem aluOp_add (env : Env) (c : Machine) (X Y : Nat) (hX : X < 15) (hY : Y < 16)
    (hx : c.V X < 256) (hy : c.V Y < 256) :
    ∃ c', execute env c (0x8004 + 0x100 * X + 0x10 * Y) = .ok (c', true) ∧
      c'.V 0xF = (if c.V X + c.V Y > 255 then 1 else 0) ∧
      c'.V X = (c.V X + c.V Y) % 256 := by
  have hw : 0x8004 + 0x100 * X + 0x10 * Y < 65536 := by omega
  have fX : (0x8004 + 0x100 * X + 0x10 * Y) / 256 % 16 = X := by omega
  have fY : (0x8004 + 0x100 * X + 0x10 * Y) / 16 % 16 = Y := by omega
  have fN : (0x8004 + 0x100 * X + 0x10 * Y) % 16 = 4 := by omega
  have hne : X ≠ 15 := by omega
  have hne' : (15 : Nat) ≠ X := by omega
  have hc : (c.V X + c.V Y) % 65536 = c.V X + c.V Y := by omega
  refine ⟨_, execute_aluOp env c _ hw (by omega) (by omega), ?_, ?_⟩
  · rw [i_aluOp_V_add _ _ fN, fX, fY]
    simp [setAt, hne', hc]
  · rw [i_aluOp_V_add _ _ fN, fX, fY]
    simp [setAt, hne]

/-- C3 applied to `8104` on registers V1 = 0, V0 = 5. -/
theorem aluOp_add_witness :
    ∃ c', execute quietEnv (machineWith regsF10 DefaultConfig)
        (0x8004 + 0x100 * 1 + 0x10 * 0) = .ok (c', true) ∧
      c'.V 0xF = (if (machineWith regsF10 DefaultConfig).V 1
                      + (machineWith regsF10 DefaultConfig).V 0 > 255 then 1 else 0) ∧
      c'.V 1 = ((machineWith regsF10 DefaultConfig).V 1
                  + (machineWith regsF10 DefaultConfig).V 0) % 256 :=
  aluOp_add quietEnv (machineWith regsF10 DefaultConfig) 1 0 (by decide) (by decide)
    (by decide) (by decide)

/-- C3 fails as stated at `X = 0xF`: with VF = 10 and V0 = 5, `8F04` leaves
VF = 5, which is neither the carry flag 0 nor the sum 15. -/
theorem aluOp_add_counterexample :
    ∃ c', execute quietEnv (machineWith regsF10 DefaultConfig) 0x8F04 = .ok (c', true) ∧
      c'.V 0xF = 5 ∧
      ¬ (c'.V 0xF = (if regsF10 0xF + regsF10 0 > 255 then 1 else 0) ∧
         c'.V 0xF = (regsF10 0xF + regsF10 0) % 256) := by
  have h : (i_aluOp { machineWith regsF10 DefaultConfig with
      Pc := ((machineWith regsF10 DefaultConfig).Pc + 2) % 65536 } 0x8F04).V 0xF = 5 := by
    rw [i_aluOp_V_add _ _ (by decide)]
    decide
  refine ⟨_, execute_aluOp quietEnv _ 0x8F04 (by decide) (by decide) (by decide), h, ?_⟩
  rw [h]
  decide

/-! ## C4: `8XY5` and `8XY7` -/

/-- C4, as amended: for `X` and `Y` in 0..15, executing `8XY5` succeeds and
leaves VX = (old VX - old VY) mod 256 and, when `X` is not 0xF, VF = 1 if
old VX > old VY and VF = 0 otherwise; executing `8XY7` succeeds and leaves
VX = (old VY - old VX) mod 256 and, when `X` is not 0xF, VF = 1 if
old VY > old VX and VF = 0 otherwise. -/
theorem aluOp_sub (env : Env) (c : Machine) (X Y : Nat) (hX : X < 16) (hY : Y < 16)
    (hx : c.V X < 256) (hy : c.V Y < 256) :
    (∃ c', execute env c (0x8005 + 0x100 * X + 0x10 * Y) = .ok (c', true) ∧
      (X ≠ 0xF → c'.V 0xF = (if c.V X > c.V Y then 1 else 0)) ∧
      (c'.V X : Int) = ((c.V X : Int) - (c.V Y : Int)) % 256) ∧
    (∃ c', execute env c (0x8007 + 0x100 * X + 0x10 * Y) = .ok (c', true) ∧
      (X ≠ 0xF → c'.V 0xF = (if c.V Y > c.V X then 1 else 0)) ∧
      (c'.V X : Int) = ((c.V Y : Int) - (c.V X : Int)) % 256) := by
  constructor
  · have hw : 0x8005 + 0x100 * X + 0x10 * Y < 65536 := by omega
    have fX : (0x8005 + 0x100 * X + 0x10 * Y) / 256 % 16 = X := by omega
    have fY : (0x8005 + 0x100 * X + 0x10 * Y) / 16 % 16 = Y := by omega
    have fN : (0x8005 + 0x100 * X + 0x10 * Y) % 16 = 5 := by omega
    refine ⟨_, execute_aluOp env c _ hw (by omega) (by omega), ?_, ?_⟩
    · intro hne
      have hne' : (15 : Nat) ≠ X := fun h => hne h.symm
      rw [i_aluOp_V_sub _ _ fN, fX, fY]
      simp [setAt, hne']
    · rw [i_aluOp_V_sub _ _ fN, fX, fY]
      simp only [setAt, if_true]
      omega
  · have hw : 0x8007 + 0x100 * X + 0x10 * Y < 65536 := by omega
    have fX : (0x8007 + 0x100 * X + 0x10 * Y) / 256 % 16 = X := by omega
    have fY : (0x8007 + 0x100 * X + 0x10 * Y) / 16 % 16 = Y := by omega
    have fN : (0x8007 + 0x100 * X + 0x10 * Y) % 16 = 7 := by omega
    refine ⟨_, execute_aluOp env c _ hw (by omega) (by omega), ?_, ?_⟩
    · intro hne
      have hne' : (15 : Nat) ≠ X := fun h => hne h.symm
      rw [i_aluOp_V_subn _ _ fN, fX, fY]
      simp [setAt, hne']
    · rw [i_aluOp_V_subn _ _ fN, fX, fY]
      simp only [setAt, if_true]
      omega

/-- C4 applied to `8105` and `8107` on registers V1 = 0, V0 = 5. -/
theorem aluOp_sub_witness :
    (∃ c', execute quietEnv (machineWith regsF10 DefaultConfig)
        (0x8005 + 0x100 * 1 + 0x10 * 0) = .ok (c', true) ∧
      ((1 : Nat) ≠ 0xF → c'.V 0xF = (if (machineWith regsF10 DefaultConfig).V 1
                      > (machineWith regsF10 DefaultConfig).V 0 then 1 else 0)) ∧
      (c'.V 1 : Int) = (((machineWith regsF10 DefaultConfig).V 1 : Int)
                  - ((machineWith regsF10 DefaultConfig).V 0 : Int)) % 256) ∧
    (∃ c', execute quietEnv (machineWith regsF10 DefaultConfig)
        (0x8007 + 0x100 * 1 + 0x10 * 0) = .ok (c', true) ∧
      ((1 : Nat) ≠ 0xF → c'.V 0xF = (if (machineWith regsF10 DefaultConfig).V 0
                      > (machineWith regsF10 DefaultConfig).V 1 then 1 else 0)) ∧
      (c'.V 1 : Int) = (((machineWith regsF10 DefaultConfig).V 0 : Int)
                  - ((machineWith regsF10 DefaultConfig).V 1 : Int)) % 256) :=
  aluOp_sub quietEnv (machineWith regsF10 DefaultConfig) 1 0 (by decide) (by decide)
    (by decide) (by decide)

/-- C4 fails as stated at `X = 0xF`: with VF = 10 and V0 = 5, `8F05` leaves
VF = 5, the difference, and not the flag 1 that the claim asks for. -/
theorem aluOp_sub_counterexample :
    ∃ c', execute quietEnv (machineWith regsF10 DefaultConfig) 0x8F05 = .ok (c', true) ∧
      c'.V 0xF = 5 ∧
      ¬ (c'.V 0xF = (if regsF10 0xF > regsF10 0 then 1 else 0)) := by
  have h : (i_aluOp { machineWith regsF10 DefaultConfig with
      Pc := ((machineWith regsF10 DefaultConfig).Pc + 2) % 65536 } 0x8F05).V 0xF = 5 := by
    rw [i_aluOp_V_sub _ _ (by decide)]
    decide
  refine ⟨_, execute_aluOp quietEnv _ 0x8F05 (by decide) (by decide) (by decide), h, ?_⟩
  rw [h]
  decide

/-! ## C5: the shifts `8XY6` and `8XYE` -/

/-- C5, as amended: for `X` in 0..14 and `Y` in 0..15: with `ShiftUseVY` set,
`8XY6` leaves VF = bit 0 of old VY and VX = old VY >> 1, and `8XYE` leaves
VF = bit 7 of old VY and VX = (old VY << 1) mod 256; with `ShiftUseVY` clear,
the same holds with old VX in place of old VY. -/
theorem aluOp_shift (env : Env) (c : Machine) (X Y : Nat) (hX : X < 15) (hY : Y < 16) :
    (c.Config.ShiftUseVY = true →
      (∃ c', execute env c (0x8006 + 0x100 * X + 0x10 * Y) = .ok (c', true) ∧
        c'.V 0xF = c.V Y % 2 ∧ c'.V X = c.V Y / 2) ∧
      (∃ c', execute env c (0x800E + 0x100 * X + 0x10 * Y) = .ok (c', true) ∧
        c'.V 0xF = c.V Y / 128 % 2 ∧ c'.V X = c.V Y * 2 % 256)) ∧
    (c.Config.ShiftUseVY = false →
      (∃ c', execute env c (0x8006 + 0x100 * X + 0x10 * Y) = .ok (c', true) ∧
        c'.V 0xF = c.V X % 2 ∧ c'.V X = c.V X / 2) ∧
      (∃ c', execute env c (0x800E + 0x100 * X + 0x10 * Y) = .ok (c', true) ∧
        c'.V 0xF = c.V X / 128 % 2 ∧ c'.V X = c.V X * 2 % 256)) := by
  have hne : X ≠ 15 := by omega
  have hne' : (15 : Nat) ≠ X := by omega
  have hw6 : 0x8006 + 0x100 * X + 0x10 * Y < 65536 := by omega
  have fX6 : (0x8006 + 0x100 * X + 0x10 * Y) / 256 % 16 = X := by omega
  have fY6 : (0x8006 + 0x100 * X + 0x10 * Y) / 16 % 16 = Y := by omega
  have fN6 : (0x8006 + 0x100 * X + 0x10 * Y) % 16 = 6 := by omega
  have hwE : 0x800E + 0x100 * X + 0x10 * Y < 65536 := by omega
  have fXE : (0x800E + 0x100 * X + 0x10 * Y) / 256 % 16 = X := by omega
  have fYE : (0x800E + 0x100 * X + 0x10 * Y) / 16 % 16 = Y := by omega
  have fNE : (0x800E + 0x100 * X + 0x10 * Y) % 16 = 0xE := by omega
  refine ⟨fun hq => ⟨⟨_, execute_aluOp env c _ hw6 (by omega) (by omega), ?_, ?_⟩,
      ⟨_, execute_aluOp env c _ hwE (by omega) (by omega), ?_, ?_⟩⟩,
    fun hq => ⟨⟨_, execute_aluOp env c _ hw6 (by omega) (by omega), ?_, ?_⟩,
      ⟨_, execute_aluOp env c _ hwE (by omega) (by omega), ?_, ?_⟩⟩⟩
  · rw [i_aluOp_V_shr _ _ fN6, fX6, fY6]; simp [setAt, hne', hq]
  · rw [i_aluOp_V_shr _ _ fN6, fX6, fY6]; simp [setAt, hne, hq]
  · rw [i_aluOp_V_shl _ _ fNE, fXE, fYE]; simp [setAt, hne', hq]
  · rw [i_aluOp_V_shl _ _ fNE, fXE, fYE]; simp [setAt, hne, hq]
  · rw [i_aluOp_V_shr _ _ fN6, fX6, fY6]; simp [setAt, hne', hq]
  · rw [i_aluOp_V_shr _ _ fN6, fX6, fY6]; simp [setAt, hne, hq]
  · rw [i_aluOp_V_shl _ _ fNE, fXE, fYE]; simp [setAt, hne', hq]
  · rw [i_aluOp_V_shl _ _ fNE, fXE, fYE]; simp [setAt, hne, hq]

/-- C5 applied to the example of the claim: `ShiftUseVY` set, X = 1, Y = 0 and
V0 = 0b00000011; `8106` leaves VF = 3 mod 2 and V1 = 3 / 2. -/
theorem aluOp_shift_witness :
    ∃ c', execute quietEnv (machineWith regsV0_3 DefaultConfig)
        (0x8006 + 0x100 * 1 + 0x10 * 0) = .ok (c', true) ∧
      c'.V 0xF = (machineWith regsV0_3 DefaultConfig).V 0 % 2 ∧
      c'.V 1 = (machineWith regsV0_3 DefaultConfig).V 0 / 2 :=
  ((aluOp_shift quietEnv (machineWith regsV0_3 DefaultConfig) 1 0 (by decide)
    (by decide)).1 rfl).1

/-- C5 fails as stated at `X = 0xF`: with `ShiftUseVY` set and V0 = 0b00000011,
`8F06` leaves VF = 0, where the claim asks for VF = bit 0 of old VY = 1. -/
theorem aluOp_shift_counterexample :
    ∃ c', execute quietEnv (machineWith regsV0_3 DefaultConfig) 0x8F06 = .ok (c', true) ∧
      (machineWith regsV0_3 DefaultConfig).Config.ShiftUseVY = true ∧
      c'.V 0xF = 0 ∧
      ¬ (c'.V 0xF = regsV0_3 0 % 2) := by
  have h : (i_aluOp { machineWith regsV0_3 DefaultConfig with
      Pc := ((machineWith regsV0_3 DefaultConfig).Pc + 2) % 65536 } 0x8F06).V 0xF = 0 := by
    rw [i_aluOp_V_shr _ _ (by decide)]
    decide
  refine ⟨_, execute_aluOp quietEnv _ 0x8F06 (by decide) (by decide) (by decide), rfl, h, ?_⟩
  rw [h]
  decide

/-! ## The display compositor -/

theorem spriteData_eq_testBit (row k : Nat) :
    decide ((row >>> k) &&& 0x1 = 0x1) = row.testBit k := by
  rw [Nat.testBit_to_div_mod, Nat.shiftRight_eq_div_pow]
  have h : row / 2 ^ k &&& 1 = row / 2 ^ k % 2 := Nat.and_pow_two_sub_one_eq_mod _ 1
  rw [h]

theorem drawRowLoop_ok (row x y : Nat) (hx : x < 64) (hy : y < 32) (rem : Nat) :
    ∀ (i : Nat) (d : DisplayArray) (f : Bool), i + rem ≤ 8 →
      ∃ d' f', drawRowLoop row x y rem i (d, f) = .ok (d', f') ∧
        (∀ r col, d' r col =
          if r = y ∧ x + i ≤ col ∧ col < x + i + rem ∧ col < 64
          then (row.testBit (7 - (col - x)) != d r col) else d r col) ∧
        (f' = true ↔ f = true ∨ ∃ k, i ≤ k ∧ k < i + rem ∧ x + k < 64 ∧
          row.testBit (7 - k) = true ∧ d y (x + k) = true) := by
  induction rem with
  | zero =>
    intro i d f _
    refine ⟨d, f, rfl, fun r col => ?_, ?_⟩
    · have r0 : ¬ (r = y ∧ x + i ≤ col ∧ col < x + i + 0 ∧ col < 64) := by omega
      simp only [r0, if_false]
    · constructor
      · intro h; exact Or.inl h
      · rintro (h | ⟨k, h1, h2, -⟩)
        · exact h
        · omega
  | succ n ih =>
    intro i d f hi
    have hm : (x + i) % 256 = x + i := by omega
    have hi1 : (i + 1) % 256 = i + 1 := by omega
    by_cases hb : x + i ≥ 64
    · refine ⟨d, f, ?_, fun r col => ?_, ?_⟩
      · simp [drawRowLoop, hm, c_SCREEN_WIDTH_PIXEL, hb]
      · have r0 : ¬ (r = y ∧ x + i ≤ col ∧ col < x + i + (n + 1) ∧ col < 64) := by omega
        simp only [r0, if_false]
      · constructor
        · intro h; exact Or.inl h
        · rintro (h | ⟨k, h1, h2, h3, -⟩)
          · exact h
          · omega
    · obtain ⟨d', f', he, hd, hf⟩ :=
        ih (i + 1)
          (setAt d y (setAt (d y) (x + i) (row.testBit (7 - i) != d y (x + i))))
          (f || (row.testBit (7 - i) && d y (x + i))) (by omega)
      refine ⟨d', f', ?_, fun r col => ?_, ?_⟩
      · have hb' : ¬ (64 ≤ x + i) := hb
        simp only [drawRowLoop, hm, hi1, c_SCREEN_WIDTH_PIXEL, c_SCREEN_HEIGHT_PIXEL,
          ge_iff_le, hb', if_false, hy, if_true, spriteData_eq_testBit]
        exact he
      · rw [hd r col]
        by_cases e : r = y ∧ col = x + i
        · obtain ⟨rfl, rfl⟩ := e
          have r1 : ¬ (r = r ∧ x + (i + 1) ≤ x + i ∧ x + i < x + (i + 1) + n ∧ x + i < 64) := by
            omega
          have r2 : r = r ∧ x + i ≤ x + i ∧ x + i < x + i + (n + 1) ∧ x + i < 64 := by
            omega
          simp [r1, r2, setAt]
        · have hs : setAt d y (setAt (d y) (x + i) (row.testBit (7 - i) != d y (x + i))) r col
              = d r col := by
            simp only [setAt]
            by_cases e1 : r = y
            · subst e1
              have e2 : col ≠ x + i := fun h => e ⟨rfl, h⟩
              simp [setAt, e2]
            · simp [e1]
          rw [hs]
          by_cases r1 : r = y ∧ x + (i + 1) ≤ col ∧ col < x + (i + 1) + n ∧ col < 64
          · have r2 : r = y ∧ x + i ≤ col ∧ col < x + i + (n + 1) ∧ col < 64 := by omega
            simp only [r1, r2, and_self, if_true]
          · have r2 : ¬ (r = y ∧ x + i ≤ col ∧ col < x + i + (n + 1) ∧ col < 64) := by omega
            simp only [r1, r2, if_false]
      · rw [hf]
        have hs : ∀ k, i + 1 ≤ k →
            setAt d y (setAt (d y) (x + i) (row.testBit (7 - i) != d y (x + i))) y (x + k)
              = d y (x + k) := by
          intro k hk
          have : x + k ≠ x + i := by omega
          simp [setAt, this]
        constructor
        · rintro (h | ⟨k, h1, h2, h3, h4, h5⟩)
          · rw [Bool.or_eq_true, Bool.and_eq_true] at h
            rcases h with h | ⟨ha, hb2⟩
            · exact Or.inl h
            · exact Or.inr ⟨i, le_refl _, by omega, by omega, ha, hb2⟩
          · rw [hs k h1] at h5
            exact Or.inr ⟨k, by omega, by omega, h3, h4, h5⟩
        · rintro (h | ⟨k, h1, h2, h3, h4, h5⟩)
          · left; simp [h]
          · by_cases e : k = i
            · subst e
              left; simp [h4, h5]
            · right
              refine ⟨k, by omega, by omega, h3, h4, ?_⟩
              rw [hs k (by omega)]
              exact h5

theorem drawRow_ok (d : DisplayArray) (row x y : Nat) (hx : x < 64) (hy : y < 32) :
    ∃ d' f', drawRow d row x y = .ok (d', f') ∧
      (∀ r col, d' r col =
        if r = y ∧ x ≤ col ∧ col < x + 8 ∧ col < 64
        then (row.testBit (7 - (col - x)) != d r col) else d r col) ∧
      (f' = true ↔ ∃ k, k < 8 ∧ x + k < 64 ∧
        row.testBit (7 - k) = true ∧ d y (x + k) = true) := by
  obtain ⟨d', f', he, hd, hf⟩ := drawRowLoop_ok row x y hx hy 8 0 d false (by omega)
  refine ⟨d', f', he, fun r col => ?_, ?_⟩
  · rw [hd r col]
    simp only [Nat.add_zero]
  · rw [hf]
    constructor
    · rintro (h | ⟨k, -, h2, h3, h4, h5⟩)
      · exact absurd h (by simp)
      · exact ⟨k, by omega, h3, h4, h5⟩
    · rintro ⟨k, h2, h3, h4, h5⟩
      exact Or.inr ⟨k, Nat.zero_le _, by omega, h3, h4, h5⟩

theorem displayLoop_ok (c : Machine) (x y : Nat) (hx : x < 64) (hy : y < 32) (rem : Nat) :
    ∀ (j : Nat) (d : DisplayArray) (ov : Bool), j + rem ≤ 16 → c.Index + j + rem ≤ 4096 →
      ∃ d' ov', displayLoop c x y rem j (d, ov) = .ok (d', ov') ∧
        (∀ r col, d' r col =
          if y + j ≤ r ∧ r < y + j + rem ∧ r < 32 ∧ x ≤ col ∧ col < x + 8 ∧ col < 64
          then ((c.Memory (c.Index + (r - y))).testBit (7 - (col - x)) != d r col)
          else d r col) ∧
        (ov' = true ↔ ov = true ∨ ∃ jj k, j ≤ jj ∧ jj < j + rem ∧ y + jj < 32 ∧ k < 8 ∧
          x + k < 64 ∧ (c.Memory (c.Index + jj)).testBit (7 - k) = true ∧
          d (y + jj) (x + k) = true) := by
  induction rem with
  | zero =>
    intro j d ov _ _
    refine ⟨d, ov, rfl, fun r col => ?_, ?_⟩
    · have r0 : ¬ (y + j ≤ r ∧ r < y + j + 0 ∧ r < 32 ∧ x ≤ col ∧ col < x + 8 ∧ col < 64) := by
        omega
      simp only [r0, if_false]
    · constructor
      · intro h; exact Or.inl h
      · rintro (h | ⟨jj, k, h1, h2, -⟩)
        · exact h
        · omega
  | succ n ih =>
    intro j d ov hj hI
    have hm : (y + j) % 256 = y + j := by omega
    have hj1 : (j + 1) % 256 = j + 1 := by omega
    have ha : (c.Index + j) % 65536 = c.Index + j := by omega
    have hlt : c.Index + j < 4096 := by omega
    by_cases hb : y + j ≥ 32
    · refine ⟨d, ov, ?_, fun r col => ?_, ?_⟩
      · simp [displayLoop, hm, c_SCREEN_HEIGHT_PIXEL, hb]
      · have r0 : ¬ (y + j ≤ r ∧ r < y + j + (n + 1) ∧ r < 32 ∧ x ≤ col ∧ col < x + 8
            ∧ col < 64) := by omega
        simp only [r0, if_false]
      · constructor
        · intro h; exact Or.inl h
        · rintro (h | ⟨jj, k, h1, h2, h3, -⟩)
          · exact h
          · omega
    · have hb' : ¬ (32 ≤ y + j) := hb
      obtain ⟨d1, f1, he1, hd1, hf1⟩ :=
        drawRow_ok d (c.Memory (c.Index + j)) x (y + j) hx (by omega)
      obtain ⟨d', ov', he, hd, hf⟩ := ih (j + 1) d1 (f1 || ov) (by omega) (by omega)
      have hrow : ∀ r col, r ≠ y + j → d1 r col = d r col := by
        intro r col hr
        rw [hd1 r col]
        have r0 : ¬ (r = y + j ∧ x ≤ col ∧ col < x + 8 ∧ col < 64) := fun h => hr h.1
        simp only [r0, if_false]
      refine ⟨d', ov', ?_, fun r col => ?_, ?_⟩
      · simp only [displayLoop, hm, hj1, ha, readMem, c_MEM_LEN, c_SCREEN_HEIGHT_PIXEL,
          ge_iff_le, hb', if_false, bind, Except.bind]
        simp only [hlt, if_true, he1]
        exact he
      · rw [hd r col]
        by_cases e : r = y + j
        · subst e
          have r1 : ¬ (y + (j + 1) ≤ y + j ∧ y + j < y + (j + 1) + n ∧ y + j < 32 ∧ x ≤ col
              ∧ col < x + 8 ∧ col < 64) := by omega
          simp only [r1, if_false]
          rw [hd1 (y + j) col]
          have hsub : y + j - y = j := by omega
          by_cases r2 : x ≤ col ∧ col < x + 8 ∧ col < 64
          · have r3 : y + j = y + j ∧ x ≤ col ∧ col < x + 8 ∧ col < 64 := ⟨rfl, r2⟩
            have r4 : y + j ≤ y + j ∧ y + j < y + j + (n + 1) ∧ y + j < 32 ∧ x ≤ col
              ∧ col < x + 8 ∧ col < 64 := by omega
            rw [if_pos r3, if_pos r4, hsub]
          · have r3 : ¬ (y + j = y + j ∧ x ≤ col ∧ col < x + 8 ∧ col < 64) := fun h => r2 h.2
            have r4 : ¬ (y + j ≤ y + j ∧ y + j < y + j + (n + 1) ∧ y + j < 32 ∧ x ≤ col
              ∧ col < x + 8 ∧ col < 64) := by omega
            rw [if_neg r3, if_neg r4]
        · rw [hrow r col e]
          by_cases r1 : y + (j + 1) ≤ r ∧ r < y + (j + 1) + n ∧ r < 32 ∧ x ≤ col
              ∧ col < x + 8 ∧ col < 64
          · have r2 : y + j ≤ r ∧ r < y + j + (n + 1) ∧ r < 32 ∧ x ≤ col
              ∧ col < x + 8 ∧ col < 64 := by omega
            simp only [r1, r2, and_self, if_true]
          · have r2 : ¬ (y + j ≤ r ∧ r < y + j + (n + 1) ∧ r < 32 ∧ x ≤ col
              ∧ col < x + 8 ∧ col < 64) := by omega
            simp only [r1, r2, if_false]
      · rw [hf]
        constructor
        · rintro (h | ⟨jj, k, h1, h2, h3, h4, h5, h6, h7⟩)
          · rw [Bool.or_eq_true] at h
            rcases h with h | h
            · obtain ⟨k, k1, k2, k3, k4⟩ := hf1.mp h
              exact Or.inr ⟨j, k, le_refl _, by omega, by omega, k1, k2, k3, k4⟩
            · exact Or.inl h
          · rw [hrow (y + jj) (x + k) (by omega)] at h7
            exact Or.inr ⟨jj, k, by omega, by omega, h3, h4, h5, h6, h7⟩
        · rintro (h | ⟨jj, k, h1, h2, h3, h4, h5, h6, h7⟩)
          · left; simp [h]
          · by_cases e : jj = j
            · subst e
              left
              have : f1 = true := hf1.mpr ⟨k, h4, h5, h6, h7⟩
              simp [this]
            · right
              refine ⟨jj, k, by omega, by omega, h3, h4, h5, h6, ?_⟩
              rw [hrow (y + jj) (x + k) (by omega)]
              exact h7

theorem execute_display (env : Env) (c : Machine) (w : Nat) (hw : w < 65536)
    (hop : w / 4096 = 0xD) :
    execute env c w =
      match i_display { c with Pc := (c.Pc + 2) % 65536 } w with
      | .ok c1 => .ok (c1, true)
      | .error e => .error e := by
  have hv : isValidInstruction w = true := by
    rw [isValidInstruction_arith w hw]
    simp [hop]
  rw [execute_valid env c w hv]
  simp [dispatch, shr12_eq, hop]

theorem setFlag_Rl (c : Machine) (b : Bool) : (setFlag c b).Rl = c.Rl := by
  cases b <;> rfl

theorem i_display_ok (c : Machine) (w : Nat) (hI : c.Index + w % 16 ≤ 4096) :
    ∃ d' ov, i_display c w =
        .ok (setFlag { c with Rl := { c.Rl with display := d' } } ov) ∧
      (∀ r col, d' r col =
        if c.V (w / 16 % 16) % 32 ≤ r ∧ r < c.V (w / 16 % 16) % 32 + w % 16 ∧ r < 32 ∧
            c.V (w / 256 % 16) % 64 ≤ col ∧ col < c.V (w / 256 % 16) % 64 + 8 ∧ col < 64
        then ((c.Memory (c.Index + (r - c.V (w / 16 % 16) % 32))).testBit
                (7 - (col - c.V (w / 256 % 16) % 64)) != c.Rl.display r col)
        else c.Rl.display r col) ∧
      (ov = true ↔ ∃ jj k, jj < w % 16 ∧ c.V (w / 16 % 16) % 32 + jj < 32 ∧ k < 8 ∧
          c.V (w / 256 % 16) % 64 + k < 64 ∧
          (c.Memory (c.Index + jj)).testBit (7 - k) = true ∧
          c.Rl.display (c.V (w / 16 % 16) % 32 + jj) (c.V (w / 256 % 16) % 64 + k) = true) := by
  have hx : c.V (w / 256 % 16) % 64 < 64 := Nat.mod_lt _ (by decide)
  have hy : c.V (w / 16 % 16) % 32 < 32 := Nat.mod_lt _ (by decide)
  have hn : w % 16 < 16 := Nat.mod_lt _ (by decide)
  obtain ⟨d', ov, he, hd, hf⟩ :=
    displayLoop_ok c _ _ hx hy (w % 16) 0 c.Rl.display false (by omega) (by omega)
  have e1 : w / 256 % 16 % 256 = w / 256 % 16 := by omega
  have e2 : w / 16 % 16 % 256 = w / 16 % 16 := by omega
  have e3 : w % 16 % 256 = w % 16 := by omega
  refine ⟨d', ov, ?_, fun r col => ?_, ?_⟩
  · simp only [i_display, shr8_eq, shr4_eq, fieldN_eq, e1, e2, e3, c_SCREEN_WIDTH_PIXEL,
      c_SCREEN_HEIGHT_PIXEL, bind, Except.bind, he, pure, Except.pure]
  · rw [hd r col]
    simp only [Nat.add_zero]
  · rw [hf]
    constructor
    · rintro (h | ⟨jj, k, -, h2, h3, h4, h5, h6, h7⟩)
      · exact absurd h (by simp)
      · exact ⟨jj, k, by omega, h3, h4, h5, h6, h7⟩
    · rintro ⟨jj, k, h2, h3, h4, h5, h6, h7⟩
      exact Or.inr ⟨jj, k, Nat.zero_le _, by omega, h3, h4, h5, h6, h7⟩

/-- What `DXYN` does, in the form used for both display claims: the pixel
buffer after the draw, the flag, and what is left alone. -/
theorem execute_display_ok (env : Env) (c : Machine) (X Y N : Nat) (hX : X < 16)
    (hY : Y < 16) (hN : N < 16) (hI : c.Index + N ≤ 4096) :
    ∃ c', execute env c (0xD000 + 0x100 * X + 0x10 * Y + N) = .ok (c', true) ∧
      c'.Memory = c.Memory ∧ c'.Index = c.Index ∧
      (∀ r, r ≠ 0xF → c'.V r = c.V r) ∧
      (∀ r col, c'.Rl.display r col =
        if c.V Y % 32 ≤ r ∧ r < c.V Y % 32 + N ∧ r < 32 ∧
            c.V X % 64 ≤ col ∧ col < c.V X % 64 + 8 ∧ col < 64
        then ((c.Memory (c.Index + (r - c.V Y % 32))).testBit (7 - (col - c.V X % 64))
                != c.Rl.display r col)
        else c.Rl.display r col) ∧
      ((c'.V 0xF = 1 ∧ ∃ j i, j < N ∧ i < 8 ∧ c.V Y % 32 + j < 32 ∧ c.V X % 64 + i < 64 ∧
          (c.Memory (c.Index + j)).testBit (7 - i) = true ∧
          c.Rl.display (c.V Y % 32 + j) (c.V X % 64 + i) = true) ∨
       (c'.V 0xF = 0 ∧ ¬ ∃ j i, j < N ∧ i < 8 ∧ c.V Y % 32 + j < 32 ∧ c.V X % 64 + i < 64 ∧
          (c.Memory (c.Index + j)).testBit (7 - i) = true ∧
          c.Rl.display (c.V Y % 32 + j) (c.V X % 64 + i) = true)) := by
  have hw : 0xD000 + 0x100 * X + 0x10 * Y + N < 65536 := by omega
  have fX : (0xD000 + 0x100 * X + 0x10 * Y + N) / 256 % 16 = X := by omega
  have fY : (0xD000 + 0x100 * X + 0x10 * Y + N) / 16 % 16 = Y := by omega
  have fN : (0xD000 + 0x100 * X + 0x10 * Y + N) % 16 = N := by omega
  obtain ⟨d', ov, he, hd, hf⟩ :=
    i_display_ok { c with Pc := (c.Pc + 2) % 65536 } (0xD000 + 0x100 * X + 0x10 * Y + N)
      (by rw [fN]; exact hI)
  rw [fX, fY, fN] at hd hf
  simp only at hd hf
  have hex := execute_display env c _ hw (by omega)
  rw [he] at hex
  refine ⟨_, hex, ?_, ?_, ?_, ?_, ?_⟩
  · cases ov <;> rfl
  · cases ov <;> rfl
  · intro r hr
    cases ov <;> simp [setFlag, setAt, hr]
  · intro r col
    simp only [setFlag_Rl]
    rw [hd]
  · cases hov : ov
    · right
      refine ⟨by simp [setFlag, setAt], ?_⟩
      rintro ⟨j, i, h1, h2, h3, h4, h5, h6⟩
      have : ov = true := hf.mpr ⟨j, i, h1, h3, h2, h4, h5, h6⟩
      rw [hov] at this
      exact absurd this (by simp)
    · left
      refine ⟨by simp [setFlag, setAt], ?_⟩
      obtain ⟨j, i, h1, h3, h2, h4, h5, h6⟩ := hf.mp hov
      exact ⟨j, i, h1, h2, h3, h4, h5, h6⟩

/-! ## C6: `DXYN` XORs the clipped sprite into the pixel buffer -/

/-- C6: with Index + N <= 4096, executing `DXYN` succeeds; with x0 = VX mod 64
and y0 = VY mod 32, every pixel (y0 + j, x0 + i) with j < N, i < 8, y0 + j < 32
and x0 + i < 64 becomes its old value XOR bit (7 - i) of Memory[Index + j],
every other pixel is unchanged, and VF is 1 if for at least one of those
pixels both the sprite bit and the old pixel were set, and 0 otherwise. -/
theorem display_xor (env : Env) (c : Machine) (X Y N : Nat) (hX : X < 16) (hY : Y < 16)
    (hN : N < 16) (hI : c.Index + N ≤ 4096) :
    ∃ c', execute env c (0xD000 + 0x100 * X + 0x10 * Y + N) = .ok (c', true) ∧
      (∀ j i, j < N → i < 8 → c.V Y % 32 + j < 32 → c.V X % 64 + i < 64 →
        c'.Rl.display (c.V Y % 32 + j) (c.V X % 64 + i) =
          xor (c.Rl.display (c.V Y % 32 + j) (c.V X % 64 + i))
            ((c.Memory (c.Index + j)).testBit (7 - i))) ∧
      (∀ r col, (¬ ∃ j i, j < N ∧ i < 8 ∧ c.V Y % 32 + j < 32 ∧ c.V X % 64 + i < 64 ∧
          r = c.V Y % 32 + j ∧ col = c.V X % 64 + i) →
        c'.Rl.display r col = c.Rl.display r col) ∧
      ((∃ j i, j < N ∧ i < 8 ∧ c.V Y % 32 + j < 32 ∧ c.V X % 64 + i < 64 ∧
          (c.Memory (c.Index + j)).testBit (7 - i) = true ∧
          c.Rl.display (c.V Y % 32 + j) (c.V X % 64 + i) = true) → c'.V 0xF = 1) ∧
      ((¬ ∃ j i, j < N ∧ i < 8 ∧ c.V Y % 32 + j < 32 ∧ c.V X % 64 + i < 64 ∧
          (c.Memory (c.Index + j)).testBit (7 - i) = true ∧
          c.Rl.display (c.V Y % 32 + j) (c.V X % 64 + i) = true) → c'.V 0xF = 0) := by
  obtain ⟨c', hex, -, -, -, hd, hf⟩ := execute_display_ok env c X Y N hX hY hN hI
  refine ⟨c', hex, ?_, ?_, ?_, ?_⟩
  · intro j i hj hi hr hc
    rw [hd]
    have r1 : c.V Y % 32 ≤ c.V Y % 32 + j ∧ c.V Y % 32 + j < c.V Y % 32 + N ∧
        c.V Y % 32 + j < 32 ∧ c.V X % 64 ≤ c.V X % 64 + i ∧
        c.V X % 64 + i < c.V X % 64 + 8 ∧ c.V X % 64 + i < 64 := by omega
    have s1 : c.V Y % 32 + j - c.V Y % 32 = j := by omega
    have s2 : c.V X % 64 + i - c.V X % 64 = i := by omega
    rw [if_pos r1, s1, s2]
    cases (c.Memory (c.Index + j)).testBit (7 - i) <;>
      cases c.Rl.display (c.V Y % 32 + j) (c.V X % 64 + i) <;> rfl
  · intro r col hout
    rw [hd]
    have r1 : ¬ (c.V Y % 32 ≤ r ∧ r < c.V Y % 32 + N ∧ r < 32 ∧ c.V X % 64 ≤ col ∧
        col < c.V X % 64 + 8 ∧ col < 64) := by
      intro h
      exact hout ⟨r - c.V Y % 32, col - c.V X % 64, by omega, by omega, by omega, by omega,
        by omega, by omega⟩
    rw [if_neg r1]
  · intro hcol
    rcases hf with ⟨h, -⟩ | ⟨-, h⟩
    · exact h
    · exact absurd hcol h
  · intro hcol
    rcases hf with ⟨-, h⟩ | ⟨h, -⟩
    · exact absurd h hcol
    · exact h

/-- C6 applied to the sprite byte 0xFF of height 1 drawn at (60, 0) on an
unlit buffer: pixel (0, 60) becomes lit, pixel (0, 59) stays unlit, VF = 0. -/
theorem display_xor_witness :
    ∃ c', execute quietEnv spriteMachine 0xD011 = .ok (c', true) ∧
      c'.Rl.display 0 60 = true ∧ c'.Rl.display 0 59 = false ∧ c'.V 0xF = 0 := by
  obtain ⟨c', hex, h1, h2, -, h4⟩ :=
    display_xor quietEnv spriteMachine 0 1 1 (by decide) (by decide) (by decide) (by decide)
  refine ⟨c', hex, ?_, ?_, ?_⟩
  · have p : c'.Rl.display 0 60 =
        xor (spriteMachine.Rl.display 0 60) ((spriteMachine.Memory 0).testBit 7) :=
      h1 0 0 (by decide) (by decide) (by decide) (by decide)
    rw [p]
    decide
  · have p : c'.Rl.display 0 59 = spriteMachine.Rl.display 0 59 := by
      apply h2
      rintro ⟨j, i, -, -, -, -, -, hc⟩
      have : spriteMachine.V 0 % 64 = 60 := by decide
      omega
    rw [p]
    rfl
  · apply h4
    rintro ⟨j, i, -, -, -, -, -, hd⟩
    exact absurd hd (by simp [spriteMachine, NewChip8, reset, NewRlWrapper])

/-! ## C7: drawing the same sprite twice restores the pixel buffer -/

/-- C7: with Index + N <= 4096, `DXYN` succeeds and leaves the memory, Index
and every register but VF alone; any second `DX'Y'N` that starts from the
buffer left by the first, at the same origin (VX' mod 64, VY' mod 32) and with
the same N sprite bytes, succeeds and restores the pixel buffer that existed
before the first draw.  If that buffer was all unlit, the first draw leaves
VF = 0 and the second leaves VF = 1 whenever some sprite bit inside the clipped
region is set. -/
theorem display_twice (env : Env) (c : Machine) (X Y N : Nat) (hX : X < 16) (hY : Y < 16)
    (hN : N < 16) (hI : c.Index + N ≤ 4096) :
    ∃ c1, execute env c (0xD000 + 0x100 * X + 0x10 * Y + N) = .ok (c1, true) ∧
      c1.Memory = c.Memory ∧ c1.Index = c.Index ∧ (∀ r, r ≠ 0xF → c1.V r = c.V r) ∧
      ((∀ r col, c.Rl.display r col = false) → c1.V 0xF = 0) ∧
      ∀ (c2 : Machine) (X2 Y2 : Nat), X2 < 16 → Y2 < 16 →
        c2.Rl.display = c1.Rl.display →
        c2.V X2 % 64 = c.V X % 64 → c2.V Y2 % 32 = c.V Y % 32 →
        c2.Index + N ≤ 4096 →
        (∀ j, j < N → c2.Memory (c2.Index + j) = c.Memory (c.Index + j)) →
        ∃ c3, execute env c2 (0xD000 + 0x100 * X2 + 0x10 * Y2 + N) = .ok (c3, true) ∧
          c3.Rl.display = c.Rl.display ∧
          ((∀ r col, c.Rl.display r col = false) →
            (∃ j i, j < N ∧ i < 8 ∧ c.V Y % 32 + j < 32 ∧ c.V X % 64 + i < 64 ∧
              (c.Memory (c.Index + j)).testBit (7 - i) = true) →
            c3.V 0xF = 1) := by
  obtain ⟨c1, hex1, hM1, hI1, hV1, hd1, hf1⟩ := execute_display_ok env c X Y N hX hY hN hI
  refine ⟨c1, hex1, hM1, hI1, hV1, ?_, ?_⟩
  · intro hun
    rcases hf1 with ⟨-, j, i, -, -, -, -, -, h⟩ | ⟨h, -⟩
    · rw [hun] at h
      exact absurd h (by simp)
    · exact h
  · intro c2 X2 Y2 hX2 hY2 hdisp hx hy hI2 hmem
    obtain ⟨c3, hex3, -, -, -, hd3, hf3⟩ := execute_display_ok env c2 X2 Y2 N hX2 hY2 hN hI2
    rw [hx, hy, hdisp] at hd3 hf3
    refine ⟨c3, hex3, ?_, ?_⟩
    · funext r col
      rw [hd3 r col, hd1 r col]
      by_cases hr : c.V Y % 32 ≤ r ∧ r < c.V Y % 32 + N ∧ r < 32 ∧ c.V X % 64 ≤ col ∧
          col < c.V X % 64 + 8 ∧ col < 64
      · rw [if_pos hr, if_pos hr, hmem (r - c.V Y % 32) (by omega)]
        cases (c.Memory (c.Index + (r - c.V Y % 32))).testBit (7 - (col - c.V X % 64)) <;>
          cases c.Rl.display r col <;> rfl
      · rw [if_neg hr, if_neg hr]
    · intro hun hbit
      obtain ⟨j, i, h1, h2, h3, h4, h5⟩ := hbit
      rcases hf3 with ⟨h, -⟩ | ⟨-, h⟩
      · exact h
      · exfalso
        apply h
        refine ⟨j, i, h1, h2, h3, h4, ?_, ?_⟩
        · rw [hmem j h1]; exact h5
        · rw [hd1]
          have hr : c.V Y % 32 ≤ c.V Y % 32 + j ∧ c.V Y % 32 + j < c.V Y % 32 + N ∧
              c.V Y % 32 + j < 32 ∧ c.V X % 64 ≤ c.V X % 64 + i ∧
              c.V X % 64 + i < c.V X % 64 + 8 ∧ c.V X % 64 + i < 64 := by omega
          have s1 : c.V Y % 32 + j - c.V Y % 32 = j := by omega
          have s2 : c.V X % 64 + i - c.V X % 64 = i := by omega
          rw [if_pos hr, s1, s2, h5, hun]
          rfl

/-- C7 at the example of the claim: the sprite byte 0xFF of height 1 drawn by
`D011` at (60, 0) on an unlit buffer lights pixels 60..63 of row 0 and leaves
VF = 0; drawing it again with the same instruction restores the unlit buffer
and leaves VF = 1. -/
theorem display_twice_witness :
    ∃ c1 c3, execute quietEnv spriteMachine 0xD011 = .ok (c1, true) ∧
      (∀ col, 60 ≤ col → col < 64 → c1.Rl.display 0 col = true) ∧ c1.V 0xF = 0 ∧
      execute quietEnv c1 0xD011 = .ok (c3, true) ∧
      c3.Rl.display = spriteMachine.Rl.display ∧ c3.V 0xF = 1 := by
  obtain ⟨c1, hex1, hM1, hI1, hV1, hf1, h2⟩ :=
    display_twice quietEnv spriteMachine 0 1 1 (by decide) (by decide) (by decide)
      (by decide)
  have hun : ∀ r col, spriteMachine.Rl.display r col = false := fun _ _ => rfl
  obtain ⟨c3, hex3, hd3, hf3⟩ :=
    h2 c1 0 1 (by decide) (by decide) rfl (by rw [hV1 0 (by decide)])
      (by rw [hV1 1 (by decide)]) (by rw [hI1]; decide)
      (fun j _ => by rw [hM1, hI1])
  refine ⟨c1, c3, hex1, ?_, hf1 hun, hex3, hd3, hf3 hun ?_⟩
  · obtain ⟨c1', hex1', -, -, -, hd, -⟩ :=
      execute_display_ok quietEnv spriteMachine 0 1 1 (by decide) (by decide) (by decide)
        (by decide)
    have hc : c1 = c1' := by
      rw [hex1] at hex1'
      injection hex1' with h
      injection h
    intro col h1 h2
    rw [hc, hd]
    interval_cases col <;> decide
  · exact ⟨0, 0, by decide, by decide, by decide, by decide, by decide⟩

/-! ## C8: the timers saturate at 0 -/

theorem decrementTimersStep_delay (c : Machine) (h : c.DelayTimer < 256) :
    (decrementTimersStep c).DelayTimer = c.DelayTimer - 1 := by
  unfold decrementTimersStep
  by_cases hd : c.DelayTimer = 0 <;> by_cases hs : c.SoundTimer = 0 <;>
    simp [hd, hs] <;> omega

theorem decrementTimersStep_sound (c : Machine) (h : c.SoundTimer < 256) :
    (decrementTimersStep c).SoundTimer = c.SoundTimer - 1 := by
  unfold decrementTimersStep
  by_cases hd : c.DelayTimer = 0 <;> by_cases hs : c.SoundTimer = 0 <;>
    simp [hd, hs] <;> omega

theorem decrementTimersStep_iterate (N : Nat) :
    ∀ c : Machine, c.DelayTimer < 256 → c.SoundTimer < 256 →
      (decrementTimersStep^[N] c).DelayTimer = c.DelayTimer - N ∧
      (decrementTimersStep^[N] c).SoundTimer = c.SoundTimer - N := by
  induction N with
  | zero => intro c _ _; simp
  | succ n ih =>
    intro c hd hs
    rw [Function.iterate_succ_apply]
    have h1 := decrementTimersStep_delay c hd
    have h2 := decrementTimersStep_sound c hs
    obtain ⟨i1, i2⟩ := ih (decrementTimersStep c) (by omega) (by omega)
    rw [i1, i2, h1, h2]
    omega

/-- C8: starting from a delay timer `T` in 0..255 (and likewise a sound
timer), after `N` iterations of the decrement step of `DecrementTimers` the
timer equals max(0, T - N). -/
theorem decrementTimers_saturate (c : Machine) (N : Nat)
    (hd : c.DelayTimer < 256) (hs : c.SoundTimer < 256) :
    ((decrementTimersStep^[N] c).DelayTimer : Int) = max 0 ((c.DelayTimer : Int) - N) ∧
    ((decrementTimersStep^[N] c).SoundTimer : Int) = max 0 ((c.SoundTimer : Int) - N) := by
  obtain ⟨h1, h2⟩ := decrementTimersStep_iterate N c hd hs
  rw [h1, h2]
  omega

/-- C8 applied to a delay timer of 3 and a sound timer of 200, decremented 5
times. -/
theorem decrementTimers_saturate_witness :
    ((decrementTimersStep^[5] timerMachine).DelayTimer : Int)
        = max 0 ((timerMachine.DelayTimer : Int) - (5 : Nat)) ∧
    ((decrementTimersStep^[5] timerMachine).SoundTimer : Int)
        = max 0 ((timerMachine.SoundTimer : Int) - (5 : Nat)) :=
  decrementTimers_saturate timerMachine 5 (by decide) (by decide)

/-! ## C9: `FX55` followed by `FX65` -/

theorem execute_storeMem (env : Env) (c : Machine) (w : Nat) (hw : w < 65536)
    (hop : w / 4096 = 15) (hcmd : w % 256 = 0x55) :
    execute env c w =
      match i_storeMem { c with Pc := (c.Pc + 2) % 65536 } (w / 256 % 16) with
      | .ok c1 => .ok (c1, true)
      | .error e => .error e := by
  have hv : isValidInstruction w = true := by
    rw [isValidInstruction_arith w hw]
    simp [hop, hcmd]
  have hx : w / 256 % 16 % 256 = w / 256 % 16 := by omega
  rw [execute_valid env c w hv]
  simp [dispatch, shr12_eq, shr8_eq, fieldN_eq, fieldNN_eq, hop, hcmd, hx]

theorem execute_loadMem (env : Env) (c : Machine) (w : Nat) (hw : w < 65536)
    (hop : w / 4096 = 15) (hcmd : w % 256 = 0x65) :
    execute env c w =
      match i_loadMem { c with Pc := (c.Pc + 2) % 65536 } (w / 256 % 16) with
      | .ok c1 => .ok (c1, true)
      | .error e => .error e := by
  have hv : isValidInstruction w = true := by
    rw [isValidInstruction_arith w hw]
    simp [hop, hcmd]
  have hx : w / 256 % 16 % 256 = w / 256 % 16 := by omega
  rw [execute_valid env c w hv]
  simp [dispatch, shr12_eq, shr8_eq, fieldN_eq, fieldNN_eq, hop, hcmd, hx]

theorem storeMemLoop_ok (rem : Nat) :
    ∀ (i : Nat) (c : Machine), c.Index + i + rem ≤ 4096 → i + rem ≤ 255 →
      ∃ m, storeMemLoop rem i c = .ok { c with Memory := m } ∧
        ∀ a, m a = if c.Index + i ≤ a ∧ a < c.Index + i + rem then c.V (a - c.Index)
                   else c.Memory a := by
  induction rem with
  | zero =>
    intro i c _ _
    refine ⟨c.Memory, rfl, fun a => ?_⟩
    have r0 : ¬ (c.Index + i ≤ a ∧ a < c.Index + i + 0) := by omega
    simp only [r0, if_false]
  | succ n ih =>
    intro i c h1 h2
    have ha : (c.Index + i) % 65536 = c.Index + i := by omega
    have hb : c.Index + i < 4096 := by omega
    have hi : (i + 1) % 256 = i + 1 := by omega
    obtain ⟨m, hm, hspec⟩ :=
      ih (i + 1) { c with Memory := setAt c.Memory (c.Index + i) (c.V i) }
        (by simp only; omega) (by omega)
    refine ⟨m, ?_, ?_⟩
    · simp only [storeMemLoop, writeMem, c_MEM_LEN, bind, Except.bind, ha, hi]
      simp only [hb, if_true]
      exact hm
    · intro a
      rw [hspec a]
      simp only [setAt]
      by_cases e : a = c.Index + i
      · subst e
        simp
      · by_cases r1 : c.Index + (i + 1) ≤ a ∧ a < c.Index + (i + 1) + n
        · have r2 : c.Index + i ≤ a ∧ a < c.Index + i + (n + 1) := by omega
          simp [r1, r2]
        · have r2 : ¬ (c.Index + i ≤ a ∧ a < c.Index + i + (n + 1)) := by omega
          simp [r1, r2, e]

theorem loadMemLoop_ok (rem : Nat) :
    ∀ (i : Nat) (c : Machine), c.Index + i + rem ≤ 4096 → i + rem ≤ 255 →
      ∃ v, loadMemLoop rem i c = .ok { c with V := v } ∧
        ∀ r, v r = if i ≤ r ∧ r < i + rem then c.Memory (c.Index + r) else c.V r := by
  induction rem with
  | zero =>
    intro i c _ _
    refine ⟨c.V, rfl, fun r => ?_⟩
    have r0 : ¬ (i ≤ r ∧ r < i + 0) := by omega
    simp only [r0, if_false]
  | succ n ih =>
    intro i c h1 h2
    have ha : (c.Index + i) % 65536 = c.Index + i := by omega
    have hb : c.Index + i < 4096 := by omega
    have hi : (i + 1) % 256 = i + 1 := by omega
    obtain ⟨v, hv, hspec⟩ :=
      ih (i + 1) { c with V := setAt c.V i (c.Memory (c.Index + i)) }
        (by simp only; omega) (by omega)
    refine ⟨v, ?_, ?_⟩
    · simp only [loadMemLoop, readMem, c_MEM_LEN, bind, Except.bind, ha, hi]
      simp only [hb, if_true]
      exact hv
    · intro r
      rw [hspec r]
      simp only [setAt]
      by_cases e : r = i
      · subst e
        simp
      · by_cases r1 : i + 1 ≤ r ∧ r < i + 1 + n
        · have r2 : i ≤ r ∧ r < i + (n + 1) := by omega
          simp [r1, r2]
        · have r2 : ¬ (i ≤ r ∧ r < i + (n + 1)) := by omega
          simp [r1, r2, e]

theorem i_storeMem_ok (c : Machine) (x : Nat) (hx : x < 16) (hI : c.Index + x ≤ 4095) :
    ∃ c1, i_storeMem c x = .ok c1 ∧ c1.V = c.V ∧
      ∀ a, c1.Memory a = if c.Index ≤ a ∧ a < c.Index + (x + 1) then c.V (a - c.Index)
                         else c.Memory a := by
  obtain ⟨m, hm, hspec⟩ := storeMemLoop_ok (x + 1) 0 c (by omega) (by omega)
  simp only [i_storeMem, hm, bind, Except.bind, pure, Except.pure]
  by_cases hq : c.Config.MemChangeIndex = true
  · simp only [hq, if_true]
    exact ⟨_, rfl, rfl, fun a => by simpa using hspec a⟩
  · simp only [hq]
    exact ⟨_, rfl, rfl, fun a => by simpa using hspec a⟩

theorem i_loadMem_ok (c : Machine) (x : Nat) (hx : x < 16) (hI : c.Index + x ≤ 4095) :
    ∃ c1, i_loadMem c x = .ok c1 ∧
      ∀ r, c1.V r = if r < x + 1 then c.Memory (c.Index + r) else c.V r := by
  obtain ⟨v, hv, hspec⟩ := loadMemLoop_ok (x + 1) 0 c (by omega) (by omega)
  simp only [i_loadMem, hv, bind, Except.bind, pure, Except.pure]
  by_cases hq : c.Config.MemChangeIndex = true
  · simp only [hq, if_true]
    exact ⟨_, rfl, fun r => by simpa using hspec r⟩
  · simp only [hq]
    exact ⟨_, rfl, fun r => by simpa using hspec r⟩

/-- C9: for `X` in 0..15 and Index + X <= 4095, `FX55` succeeds, and `FX65`
with the same `X`, run on any machine that has the memory left by the store
and the Index the store started from (its registers and its quirk
configuration are arbitrary), succeeds and leaves V0..VX equal to the values
they had before the store and the registers above `X` as the load found them.
Nothing is assumed about `MemChangeIndex`, in either machine. -/
theorem store_load_roundtrip (env : Env) (c : Machine) (X : Nat) (hX : X < 16)
    (hI : c.Index + X ≤ 4095) :
    ∃ c1, execute env c (0xF055 + 0x100 * X) = .ok (c1, true) ∧
      ∀ c2 : Machine, c2.Memory = c1.Memory → c2.Index = c.Index →
        ∃ c3, execute env c2 (0xF065 + 0x100 * X) = .ok (c3, true) ∧
          (∀ r, r ≤ X → c3.V r = c.V r) ∧
          (∀ r, X < r → c3.V r = c2.V r) := by
  have hw5 : 0xF055 + 0x100 * X < 65536 := by omega
  have fX5 : (0xF055 + 0x100 * X) / 256 % 16 = X := by omega
  have hw6 : 0xF065 + 0x100 * X < 65536 := by omega
  have fX6 : (0xF065 + 0x100 * X) / 256 % 16 = X := by omega
  obtain ⟨c1, h1, hV1, hM1⟩ :=
    i_storeMem_ok { c with Pc := (c.Pc + 2) % 65536 } X hX (by simpa using hI)
  refine ⟨c1, ?_, ?_⟩
  · rw [execute_storeMem env c _ hw5 (by omega) (by omega), fX5, h1]
  · intro c2 hmem hidx
    obtain ⟨c3, h3, hV3⟩ :=
      i_loadMem_ok { c2 with Pc := (c2.Pc + 2) % 65536 } X hX (by simp only; omega)
    refine ⟨c3, ?_, ?_, ?_⟩
    · rw [execute_loadMem env c2 _ hw6 (by omega) (by omega), fX6, h3]
    · intro r hr
      have hr' : r < X + 1 := by omega
      rw [hV3 r]
      simp only [hr', if_true, hmem, hidx]
      rw [hM1 (c.Index + r)]
      have hin : c.Index ≤ c.Index + r ∧ c.Index + r < c.Index + (X + 1) := by omega
      simp [hin]
    · intro r hr
      have hr' : ¬ r < X + 1 := by omega
      rw [hV3 r]
      simp [hr']

/-- C9 applied with `X = 1` to the machine with V0 = 156 and Index = 0. -/
theorem store_load_roundtrip_witness :
    ∃ c1, execute quietEnv (machineWith regsV0_156 DefaultConfig)
        (0xF055 + 0x100 * 1) = .ok (c1, true) ∧
      ∀ c2 : Machine, c2.Memory = c1.Memory →
        c2.Index = (machineWith regsV0_156 DefaultConfig).Index →
        ∃ c3, execute quietEnv c2 (0xF065 + 0x100 * 1) = .ok (c3, true) ∧
          (∀ r, r ≤ 1 → c3.V r = (machineWith regsV0_156 DefaultConfig).V r) ∧
          (∀ r, 1 < r → c3.V r = c2.V r) :=
  store_load_roundtrip quietEnv (machineWith regsV0_156 DefaultConfig) 1 (by decide)
    (by decide)

/-! ## C10: `FX33`, binary-coded decimal -/

theorem execute_bcd (env : Env) (c : Machine) (w : Nat) (hw : w < 65536)
    (hop : w / 4096 = 15) (hcmd : w % 256 = 0x33) :
    execute env c w =
      match i_binaryCodedDecimalConversion { c with Pc := (c.Pc + 2) % 65536 }
          (w / 256 % 16) with
      | .ok c1 => .ok (c1, true)
      | .error e => .error e := by
  have hv : isValidInstruction w = true := by
    rw [isValidInstruction_arith w hw]
    simp [hop, hcmd]
  have hx : w / 256 % 16 % 256 = w / 256 % 16 := by omega
  rw [execute_valid env c w hv]
  simp [dispatch, shr12_eq, shr8_eq, fieldN_eq, fieldNN_eq, hop, hcmd, hx]

theorem i_binaryCodedDecimalConversion_ok (c : Machine) (x : Nat)
    (hI : c.Index + 2 ≤ 4095) :
    i_binaryCodedDecimalConversion c x =
      .ok { c with Memory :=
              setAt (setAt (setAt c.Memory c.Index (c.V x / 100 % 10))
                (c.Index + 1) (c.V x / 10 % 10)) (c.Index + 2) (c.V x % 10) } := by
  have h0 : c.Index % 65536 = c.Index := by omega
  have h1 : (c.Index + 1) % 65536 = c.Index + 1 := by omega
  have h2 : (c.Index + 2) % 65536 = c.Index + 2 := by omega
  have b0 : c.Index < 4096 := by omega
  have b1 : c.Index + 1 < 4096 := by omega
  have b2 : c.Index + 2 < 4096 := by omega
  simp only [i_binaryCodedDecimalConversion, writeMem, c_MEM_LEN, bind, Except.bind]
  simp [h0, h1, h2, b0, b1, b2]

/-- C10: for VX = v in 0..255 and Index + 2 <= 4095, executing `FX33` succeeds
and writes decimal digits h, t, u (each below 10, with 100 h + 10 t + u = v) to
Memory[Index], Memory[Index+1], Memory[Index+2]; no other memory byte, no
register and not Index is changed. -/
theorem bcd_store (env : Env) (c : Machine) (X : Nat) (hX : X < 16)
    (hv : c.V X < 256) (hI : c.Index + 2 ≤ 4095) :
    ∃ c', execute env c (0xF033 + 0x100 * X) = .ok (c', true) ∧
      (∃ h t u, h < 10 ∧ t < 10 ∧ u < 10 ∧ 100 * h + 10 * t + u = c.V X ∧
        c'.Memory c.Index = h ∧ c'.Memory (c.Index + 1) = t ∧
        c'.Memory (c.Index + 2) = u) ∧
      (∀ a, a ≠ c.Index → a ≠ c.Index + 1 → a ≠ c.Index + 2 →
        c'.Memory a = c.Memory a) ∧
      c'.V = c.V ∧ c'.Index = c.Index := by
  have hw : 0xF033 + 0x100 * X < 65536 := by omega
  have fX : (0xF033 + 0x100 * X) / 256 % 16 = X := by omega
  have he := execute_bcd env c _ hw (by omega) (by omega)
  rw [fX, i_binaryCodedDecimalConversion_ok _ _ (by simpa using hI)] at he
  refine ⟨_, he, ⟨c.V X / 100 % 10, c.V X / 10 % 10, c.V X % 10, ?_, ?_, ?_, ?_, ?_, ?_, ?_⟩,
    ?_, rfl, rfl⟩
  · omega
  · omega
  · omega
  · omega
  · simp [setAt]
  · simp [setAt]
  · simp [setAt]
  · intro a h0 h1 h2
    simp [setAt, h0, h1, h2]

/-- C10 at the example of the claim: V0 = 156 and Index = 0 give the bytes
1, 5, 6 at addresses 0, 1, 2. -/
theorem bcd_store_witness :
    ∃ c', execute quietEnv (machineWith regsV0_156 DefaultConfig) 0xF033 = .ok (c', true) ∧
      c'.Memory 0 = 1 ∧ c'.Memory 1 = 5 ∧ c'.Memory 2 = 6 := by
  obtain ⟨c', he, ⟨h, t, u, hh, ht, hu, hs, m0, m1, m2⟩, -, -, -⟩ :=
    bcd_store quietEnv (machineWith regsV0_156 DefaultConfig) 0 (by decide) (by decide)
      (by decide)
  have hv : (machineWith regsV0_156 DefaultConfig).V 0 = 156 := rfl
  have hi : (machineWith regsV0_156 DefaultConfig).Index = 0 := rfl
  rw [hv] at hs
  rw [hi] at m0 m1 m2
  refine ⟨c', he, ?_, ?_, ?_⟩
  · rw [m0]; omega
  · rw [m1]; omega
  · rw [m2]; omega

/-! ## C11: `FX29`, the font glyph of a hex digit -/

theorem execute_fontChar (env : Env) (c : Machine) (w : Nat) (hw : w < 65536)
    (hop : w / 4096 = 15) (hcmd : w % 256 = 0x29) :
    execute env c w =
      match i_mvIndexToFontChar { c with Pc := (c.Pc + 2) % 65536 } (w / 256 % 16) with
      | .ok c1 => .ok (c1, true)
      | .error e => .error e := by
  have hv : isValidInstruction w = true := by
    rw [isValidInstruction_arith w hw]
    simp [hop, hcmd]
  have hx : w / 256 % 16 % 256 = w / 256 % 16 := by omega
  rw [execute_valid env c w hv]
  simp [dispatch, shr12_eq, shr8_eq, fieldN_eq, fieldNN_eq, hop, hcmd, hx]

theorem i_mvIndexToFontChar_ok (c : Machine) (x : Nat) (h : c.V x ≤ 0xF) :
    i_mvIndexToFontChar c x = .ok { c with Index := 0x50 + 5 * c.V x } := by
  have h1 : ¬ c.V x > 0xF := by omega
  have e1 : 5 * c.V x % 256 = 5 * c.V x := Nat.mod_eq_of_lt (by omega)
  have h2 : (c_FONT_INDEX + 5 * c.V x % 256) % 65536 = 0x50 + 5 * c.V x := by
    rw [e1]
    exact Nat.mod_eq_of_lt (by simp only [c_FONT_INDEX]; omega)
  simp only [i_mvIndexToFontChar, h1, if_false, h2]

theorem runSetup_font (c : Machine) (program : List Nat) (k : Nat) (hk : k < 80) :
    (runSetup c program).Memory (0x50 + k) = v_FONT.getD k 0 := by
  have h1 : ¬ (0x200 ≤ 0x50 + k ∧ 0x50 + k < c_MEM_LEN ∧
      0x50 + k - 0x200 < program.length) := by omega
  have h2 : c_FONT_INDEX ≤ 0x50 + k ∧ 0x50 + k < c_FONT_INDEX + 0x50 := by
    simp only [c_FONT_INDEX]; omega
  have h3 : 0x50 + k - c_FONT_INDEX = k := by
    simp only [c_FONT_INDEX]; omega
  simp only [runSetup, if_neg h1, if_pos h2, h3]

/-- C11: when VX = d <= 0xF, executing `FX29` succeeds and sets Index to
0x50 + 5 d; if the font table is in memory at 0x050..0x09F, as `Run` puts it
there from `v_FONT`, the bytes Memory[Index .. Index+4] are
`v_FONT[5 d .. 5 d + 4]`, the glyph rows of the digit d. -/
theorem fontChar_glyph (env : Env) (c : Machine) (X : Nat) (hX : X < 16)
    (hd : c.V X ≤ 0xF)
    (hfont : ∀ k, k < 80 → c.Memory (0x50 + k) = v_FONT.getD k 0) :
    ∃ c', execute env c (0xF029 + 0x100 * X) = .ok (c', true) ∧
      c'.Index = 0x50 + 5 * c.V X ∧
      ∀ k, k < 5 → c'.Memory (c'.Index + k) = v_FONT.getD (5 * c.V X + k) 0 := by
  have hw : 0xF029 + 0x100 * X < 65536 := by omega
  have fX : (0xF029 + 0x100 * X) / 256 % 16 = X := by omega
  have he := execute_fontChar env c _ hw (by omega) (by omega)
  rw [fX, i_mvIndexToFontChar_ok _ _ (by simpa using hd)] at he
  refine ⟨_, he, rfl, ?_⟩
  intro k hk
  have h := hfont (5 * c.V X + k) (by omega)
  simp only
  rw [← h]
  congr 1
  omega

/-- C11 at the example of the claim: after the set-up of `Run`, with
V0 = 0xA, `F029` sets Index to 0x50 + 50 and the five bytes there are
F0 90 F0 90 90. -/
theorem fontChar_glyph_witness :
    ∃ c', execute quietEnv { loaded [] with V := regsV0_A } 0xF029 = .ok (c', true) ∧
      c'.Index = 0x50 + 50 ∧
      c'.Memory c'.Index = 0xF0 ∧ c'.Memory (c'.Index + 1) = 0x90 ∧
      c'.Memory (c'.Index + 2) = 0xF0 ∧ c'.Memory (c'.Index + 3) = 0x90 ∧
      c'.Memory (c'.Index + 4) = 0x90 := by
  obtain ⟨c', he, hi, hm⟩ :=
    fontChar_glyph quietEnv { loaded [] with V := regsV0_A } 0 (by decide) (by decide)
      (fun k hk => runSetup_font _ [] k hk)
  exact ⟨c', he, hi, hm 0 (by decide), hm 1 (by decide), hm 2 (by decide),
    hm 3 (by decide), hm 4 (by decide)⟩

/-! ## C12: two cycles of `6XNN`, `7XMM` -/

theorem fetch_ok (c : Machine) (h : c.Pc + 1 < 4096)
    (hhi : c.Memory c.Pc < 256) (hlo : c.Memory (c.Pc + 1) < 256) :
    fetch c = .ok (256 * c.Memory c.Pc + c.Memory (c.Pc + 1)) := by
  have h0 : c.Pc < 4096 := by omega
  have h1 : (c.Pc + 1) % 65536 = c.Pc + 1 := by omega
  have h2 : ((c.Memory c.Pc <<< 8) % 65536 + c.Memory (c.Pc + 1)) % 65536
      = 256 * c.Memory c.Pc + c.Memory (c.Pc + 1) := by
    rw [Nat.shiftLeft_eq]
    omega
  simp only [fetch, readMem, c_MEM_LEN, bind, Except.bind, h1, pure, Except.pure]
  simp only [h0, h, if_true, h2]

theorem execute_setRegister (env : Env) (c : Machine) (w : Nat) (hw : w < 65536)
    (hop : w / 4096 = 6) :
    execute env c w = .ok (i_setRegister { c with Pc := (c.Pc + 2) % 65536 } w, true) := by
  have hv : isValidInstruction w = true := by
    rw [isValidInstruction_arith w hw]
    simp [hop]
  rw [execute_valid env c w hv]
  simp [dispatch, shr12_eq, hop]

theorem execute_addToRegister (env : Env) (c : Machine) (w : Nat) (hw : w < 65536)
    (hop : w / 4096 = 7) :
    execute env c w = .ok (i_addToRegister { c with Pc := (c.Pc + 2) % 65536 } w, true) := by
  have hv : isValidInstruction w = true := by
    rw [isValidInstruction_arith w hw]
    simp [hop]
  rw [execute_valid env c w hv]
  simp [dispatch, shr12_eq, hop]

theorem runCycle_of_execute (env : Env) (c c1 : Machine) (w : Nat)
    (hf : fetch c = .ok w) (he : execute env c w = .ok (c1, true)) :
    runCycle env c = .ok c1 := by
  simp [runCycle, hf, he, bind, Except.bind, pure, Except.pure]

/-- C12: in a machine with PC = 0x200 whose memory at 0x200..0x203 holds the
big-endian words `6XNN` and `7XMM`, two cycles of `Run` both succeed and leave
VX = (NN + MM) mod 256 and PC = 0x204; every other register, the memory, the
index, the stack, the timers, the display wrapper and the quirk configuration
are unchanged. -/
theorem two_cycles_set_add (env : Env) (c : Machine) (X NN MM : Nat) (hX : X < 16)
    (hNN : NN < 256) (hMM : MM < 256) (hpc : c.Pc = 0x200)
    (m0 : c.Memory 0x200 = 0x60 + X) (m1 : c.Memory 0x201 = NN)
    (m2 : c.Memory 0x202 = 0x70 + X) (m3 : c.Memory 0x203 = MM) :
    ∃ c1 c2, runCycle env c = .ok c1 ∧ runCycle env c1 = .ok c2 ∧
      c2.V X = (NN + MM) % 256 ∧ c2.Pc = 0x204 ∧
      (∀ r, r ≠ X → c2.V r = c.V r) ∧ c2.Memory = c.Memory ∧ c2.Index = c.Index ∧
      c2.Stack = c.Stack ∧ c2.DelayTimer = c.DelayTimer ∧
      c2.SoundTimer = c.SoundTimer ∧ c2.Rl = c.Rl ∧ c2.Config = c.Config := by
  have f1 : fetch c = .ok (0x6000 + 0x100 * X + NN) := by
    rw [fetch_ok c (by omega) (by rw [hpc, m0]; omega) (by rw [hpc, m1]; exact hNN)]
    rw [hpc, m0, m1]
    congr 1
    omega
  have e1 := execute_setRegister env c (0x6000 + 0x100 * X + NN) (by omega) (by omega)
  have r1 := runCycle_of_execute env c _ _ f1 e1
  have g1 : (0x6000 + 0x100 * X + NN) / 256 % 16 = X := by omega
  have g2 : (0x6000 + 0x100 * X + NN) % 256 % 256 = NN := by omega
  have hc1 : i_setRegister { c with Pc := (c.Pc + 2) % 65536 } (0x6000 + 0x100 * X + NN)
      = { c with Pc := 0x202, V := setAt c.V X NN } := by
    simp only [i_setRegister, shr8_eq, fieldN_eq, fieldNN_eq, g1, g2, hpc]
  rw [hc1] at r1
  have f2 : fetch { c with Pc := 0x202, V := setAt c.V X NN }
      = .ok (0x7000 + 0x100 * X + MM) := by
    rw [fetch_ok _ (by simp only; omega) (by simp only; rw [m2]; omega)
      (by simp only; rw [m3]; exact hMM)]
    simp only
    rw [m2, m3]
    congr 1
    omega
  have e2 := execute_addToRegister env { c with Pc := 0x202, V := setAt c.V X NN }
    (0x7000 + 0x100 * X + MM) (by omega) (by omega)
  have r2 := runCycle_of_execute env _ _ _ f2 e2
  have k1 : (0x7000 + 0x100 * X + MM) / 256 % 16 = X := by omega
  have k2 : (0x7000 + 0x100 * X + MM) % 256 % 256 = MM := by omega
  refine ⟨_, _, r1, r2, ?_, ?_, ?_, rfl, rfl, rfl, rfl, rfl, rfl, rfl⟩
  · simp only [i_addToRegister, shr8_eq, fieldN_eq, fieldNN_eq, k1, k2, setAt, if_true]
  · simp only [i_addToRegister]
  · intro r hr
    simp only [i_addToRegister, shr8_eq, fieldN_eq, fieldNN_eq, k1, k2, setAt, hr, if_false]

/-- C12 at the example of the claim: the loaded program `6005`, `7003` leaves
V0 = 8 and PC = 0x204 after two cycles. -/
theorem two_cycles_set_add_witness :
    ∃ c1 c2, runCycle quietEnv (loaded [0x60, 0x05, 0x70, 0x03]) = .ok c1 ∧
      runCycle quietEnv c1 = .ok c2 ∧ c2.V 0 = 8 ∧ c2.Pc = 0x204 := by
  obtain ⟨c1, c2, h1, h2, hv, hp, -⟩ :=
    two_cycles_set_add quietEnv (loaded [0x60, 0x05, 0x70, 0x03]) 0 5 3 (by decide)
      (by decide) (by decide) rfl (by decide) (by decide) (by decide) (by decide)
  exact ⟨c1, c2, h1, h2, hv, hp⟩

/-! ## The call stack -/

theorem push_ok (s : Stack) (a : Nat) (h : s.stackPtr ≤ 15) :
    push s a = .ok { data := setAt s.data s.stackPtr a,
                     stackPtr := (s.stackPtr + 255) % 256 } := by
  have h1 : s.stackPtr < c_STACK_LEN := by simp only [c_STACK_LEN]; omega
  simp only [push, h1, if_true]

theorem pop_ok (s : Stack) (h : (s.stackPtr + 1) % 256 ≤ 15) :
    pop s = .ok ({ s with stackPtr := (s.stackPtr + 1) % 256 },
                 s.data ((s.stackPtr + 1) % 256)) := by
  have h1 : (s.stackPtr + 1) % 256 < c_STACK_LEN := by simp only [c_STACK_LEN]; omega
  simp only [pop, h1, if_true]

theorem push_fault (s : Stack) (a : Nat) (h : s.stackPtr ≥ 16) :
    push s a = .error .indexOutOfRange := by
  have h1 : ¬ s.stackPtr < c_STACK_LEN := by simp only [c_STACK_LEN]; omega
  simp only [push, h1, if_false]

theorem pop_fault (s : Stack) (h : (s.stackPtr + 1) % 256 ≥ 16) :
    pop s = .error .indexOutOfRange := by
  have h1 : ¬ (s.stackPtr + 1) % 256 < c_STACK_LEN := by simp only [c_STACK_LEN]; omega
  simp only [pop, h1, if_false]

theorem popN_succ (n : Nat) (s s1 s2 : Stack) (xs : List Nat) (x : Nat)
    (h1 : popN n s = .ok (s1, xs)) (h2 : pop s1 = .ok (s2, x)) :
    popN (n + 1) s = .ok (s2, xs ++ [x]) := by
  simp only [popN, h1, h2, bind, Except.bind, pure, Except.pure]

/-- Pushes followed by as many pops, from a stack with room for them, give
back the addresses last pushed first and restore the pointer and every entry
above it. -/
theorem pushAll_popN (as : List Nat) :
    ∀ s : Stack, s.stackPtr ≤ 15 → as.length ≤ s.stackPtr + 1 →
      ∃ s1, pushAll s as = .ok s1 ∧
        ∃ s2, popN as.length s1 = .ok (s2, as.reverse) ∧
          s2.stackPtr = s.stackPtr ∧ ∀ q, s.stackPtr < q → s2.data q = s.data q := by
  induction as with
  | nil =>
    intro s _ _
    exact ⟨s, rfl, s, rfl, rfl, fun _ _ => rfl⟩
  | cons a rest ih =>
    intro s hp hlen
    have hpush := push_ok s a hp
    cases rest with
    | nil =>
      refine ⟨{ data := setAt s.data s.stackPtr a,
                stackPtr := (s.stackPtr + 255) % 256 }, ?_, ?_⟩
      · simp only [pushAll, hpush, bind, Except.bind]
      · have hidx : ((s.stackPtr + 255) % 256 + 1) % 256 = s.stackPtr := by omega
        have hpop := pop_ok { data := setAt s.data s.stackPtr a,
                              stackPtr := (s.stackPtr + 255) % 256 }
          (by simp only; omega)
        simp only [hidx, setAt_same] at hpop
        refine ⟨{ data := setAt s.data s.stackPtr a, stackPtr := s.stackPtr },
          popN_succ 0 _ _ _ [] _ rfl hpop, rfl, ?_⟩
        intro q hq
        have : q ≠ s.stackPtr := by omega
        simp [setAt, this]
    | cons b rest' =>
      have hlen' : rest'.length + 2 ≤ s.stackPtr + 1 := by
        simpa [List.length_cons] using hlen
      have hptr : (s.stackPtr + 255) % 256 = s.stackPtr - 1 := by omega
      obtain ⟨s1, h1, s2, h2, hp2, hd2⟩ :=
        ih { data := setAt s.data s.stackPtr a, stackPtr := (s.stackPtr + 255) % 256 }
          (by simp only; omega) (by simp only [List.length_cons]; omega)
      simp only at hp2 hd2
      refine ⟨s1, ?_, ?_⟩
      · simp only [pushAll, hpush, bind, Except.bind] at h1 ⊢
        exact h1
      · have hidx : (s2.stackPtr + 1) % 256 = s.stackPtr := by omega
        have hpop := pop_ok s2 (by omega)
        simp only [hidx] at hpop
        have htop : s2.data s.stackPtr = a := by
          rw [hd2 s.stackPtr (by omega)]
          simp [setAt]
        rw [htop] at hpop
        refine ⟨{ s2 with stackPtr := s.stackPtr }, ?_, rfl, ?_⟩
        · have := popN_succ (b :: rest').length s1 s2 _ (b :: rest').reverse a h2 hpop
          simpa [List.reverse_cons] using this
        · intro q hq
          simp only
          rw [hd2 q (by omega)]
          have : q ≠ s.stackPtr := by omega
          simp [setAt, this]

theorem execute_subroutine (env : Env) (c : Machine) (w : Nat) (hw : w < 65536)
    (hop : w / 4096 = 2) :
    execute env c w =
      match i_subroutine { c with Pc := (c.Pc + 2) % 65536 } w with
      | .ok c1 => .ok (c1, true)
      | .error e => .error e := by
  have hv : isValidInstruction w = true := by
    rw [isValidInstruction_arith w hw]
    simp [hop]
  rw [execute_valid env c w hv]
  simp [dispatch, shr12_eq, hop]

theorem execute_ret (env : Env) (c : Machine) :
    execute env c 0x00EE =
      match i_ret { c with Pc := (c.Pc + 2) % 65536 } with
      | .ok c1 => .ok (c1, true)
      | .error e => .error e := by
  rw [execute_valid env c 0x00EE (by decide)]
  simp [dispatch]

theorem i_subroutine_ok (c : Machine) (w : Nat) (h : c.Stack.stackPtr ≤ 15) :
    i_subroutine c w =
      .ok { c with
            Stack := { data := setAt c.Stack.data c.Stack.stackPtr c.Pc,
                       stackPtr := (c.Stack.stackPtr + 255) % 256 },
            Pc := w % 4096 } := by
  simp only [i_subroutine, push_ok c.Stack c.Pc h, bind, Except.bind, pure, Except.pure,
    fieldNNN_eq]

theorem i_ret_ok (c : Machine) (h : (c.Stack.stackPtr + 1) % 256 ≤ 15) :
    i_ret c =
      .ok { c with
            Stack := { c.Stack with stackPtr := (c.Stack.stackPtr + 1) % 256 },
            Pc := c.Stack.data ((c.Stack.stackPtr + 1) % 256) } := by
  simp only [i_ret, pop_ok c.Stack h, bind, Except.bind, pure, Except.pure]

/-! ## Instructions other than `2NNN` and `00EE` leave the stack alone -/

theorem setFlag_Stack (c : Machine) (b : Bool) : (setFlag c b).Stack = c.Stack := by
  cases b <;> rfl

theorem writeMem_Stack (c c1 : Machine) (a v : Nat) (h : writeMem c a v = .ok c1) :
    c1.Stack = c.Stack := by
  unfold writeMem at h
  split at h
  · injection h with h
    rw [← h]
  · exact absurd h (by simp)

theorem i_aluOp_Stack (c : Machine) (w : Nat) : (i_aluOp c w).Stack = c.Stack := by
  unfold i_aluOp
  simp only [apply_ite Machine.Stack, setFlag_Stack, ite_self]

theorem i_display_Stack (c c1 : Machine) (w : Nat) (h : i_display c w = .ok c1) :
    c1.Stack = c.Stack := by
  simp only [i_display, bind, Except.bind, pure, Except.pure] at h
  split at h
  · exact absurd h (by simp)
  · injection h with h
    rw [← h, setFlag_Stack]

theorem i_skipIfKeyDown_Stack (env : Env) (c c1 : Machine) (w : Nat)
    (h : i_skipIfKeyDown env c w = .ok c1) : c1.Stack = c.Stack := by
  simp only [i_skipIfKeyDown] at h
  split_ifs at h
  · injection h with h; rw [← h]
  · injection h with h; rw [← h]

theorem i_mvIndexToFontChar_Stack (c c1 : Machine) (x : Nat)
    (h : i_mvIndexToFontChar c x = .ok c1) : c1.Stack = c.Stack := by
  simp only [i_mvIndexToFontChar] at h
  split_ifs at h
  injection h with h
  rw [← h]

theorem i_binaryCodedDecimalConversion_Stack (c c1 : Machine) (x : Nat)
    (h : i_binaryCodedDecimalConversion c x = .ok c1) : c1.Stack = c.Stack := by
  simp only [i_binaryCodedDecimalConversion, bind, Except.bind] at h
  cases h1 : writeMem c ((c.Index + 0) % 65536) (c.V x / 100 % 10) with
  | error e => rw [h1] at h; exact absurd h (by simp)
  | ok a1 =>
    rw [h1] at h
    simp only at h
    cases h2 : writeMem a1 ((a1.Index + 1) % 65536) (c.V x / 10 % 10) with
    | error e => rw [h2] at h; exact absurd h (by simp)
    | ok a2 =>
      rw [h2] at h
      simp only at h
      rw [writeMem_Stack _ _ _ _ h, writeMem_Stack _ _ _ _ h2, writeMem_Stack _ _ _ _ h1]

theorem storeMemLoop_Stack (rem : Nat) :
    ∀ (i : Nat) (c c1 : Machine), storeMemLoop rem i c = .ok c1 → c1.Stack = c.Stack := by
  induction rem with
  | zero =>
    intro i c c1 h
    simp only [storeMemLoop] at h
    injection h with h
    rw [h]
  | succ n ih =>
    intro i c c1 h
    simp only [storeMemLoop, bind, Except.bind] at h
    cases h1 : writeMem c ((c.Index + i) % 65536) (c.V i) with
    | error e => rw [h1] at h; exact absurd h (by simp)
    | ok a1 =>
      rw [h1] at h
      simp only at h
      rw [ih _ _ _ h, writeMem_Stack _ _ _ _ h1]

theorem loadMemLoop_Stack (rem : Nat) :
    ∀ (i : Nat) (c c1 : Machine), loadMemLoop rem i c = .ok c1 → c1.Stack = c.Stack := by
  induction rem with
  | zero =>
    intro i c c1 h
    simp only [loadMemLoop] at h
    injection h with h
    rw [h]
  | succ n ih =>
    intro i c c1 h
    simp only [loadMemLoop, bind, Except.bind] at h
    cases h1 : readMem c ((c.Index + i) % 65536) with
    | error e => rw [h1] at h; exact absurd h (by simp)
    | ok v =>
      rw [h1] at h
      simp only at h
      rw [ih _ _ _ h]

theorem i_storeMem_Stack (c c1 : Machine) (x : Nat) (h : i_storeMem c x = .ok c1) :
    c1.Stack = c.Stack := by
  simp only [i_storeMem, bind, Except.bind, pure, Except.pure] at h
  cases h1 : storeMemLoop (x + 1) 0 c with
  | error e => rw [h1] at h; exact absurd h (by simp)
  | ok a1 =>
    rw [h1] at h
    simp only at h
    have hs := storeMemLoop_Stack _ _ _ _ h1
    split_ifs at h <;> (injection h with h; rw [← h]; exact hs)

theorem i_loadMem_Stack (c c1 : Machine) (x : Nat) (h : i_loadMem c x = .ok c1) :
    c1.Stack = c.Stack := by
  simp only [i_loadMem, bind, Except.bind, pure, Except.pure] at h
  cases h1 : loadMemLoop (x + 1) 0 c with
  | error e => rw [h1] at h; exact absurd h (by simp)
  | ok a1 =>
    rw [h1] at h
    simp only at h
    have hs := loadMemLoop_Stack _ _ _ _ h1
    split_ifs at h <;> (injection h with h; rw [← h]; exact hs)

theorem i_getKey_Stack (env : Env) (c : Machine) (x : Nat) :
    (i_getKey env c x).Stack = c.Stack := by
  unfold i_getKey
  simp only
  split
  · split <;> rfl
  · rfl

theorem i_addToIndex_Stack (c : Machine) (x : Nat) : (i_addToIndex c x).Stack = c.Stack := by
  unfold i_addToIndex
  simp only [apply_ite Machine.Stack, setFlag_Stack, ite_self]

theorem i_timer_Stack (c : Machine) (x cmd : Nat) : (i_timer c x cmd).Stack = c.Stack := by
  unfold i_timer
  simp only [apply_ite Machine.Stack, ite_self]

theorem i_skipIfEqualNN_Stack (c : Machine) (w : Nat) :
    (i_skipIfEqualNN c w).Stack = c.Stack := by
  unfold i_skipIfEqualNN
  simp only [apply_ite Machine.Stack, ite_self]

theorem i_skipIfNotEqualNN_Stack (c : Machine) (w : Nat) :
    (i_skipIfNotEqualNN c w).Stack = c.Stack := by
  unfold i_skipIfNotEqualNN
  simp only [apply_ite Machine.Stack, ite_self]

theorem i_skipIfEqualReg_Stack (c : Machine) (w : Nat) :
    (i_skipIfEqualReg c w).Stack = c.Stack := by
  unfold i_skipIfEqualReg
  simp only [apply_ite Machine.Stack, ite_self]

theorem i_skipIfNotEqualReg_Stack (c : Machine) (w : Nat) :
    (i_skipIfNotEqualReg c w).Stack = c.Stack := by
  unfold i_skipIfNotEqualReg
  simp only [apply_ite Machine.Stack, ite_self]

theorem dispatch_F_Stack (env : Env) (c c1 : Machine) (w : Nat) (hop : w / 4096 = 15)
    (h : dispatch env c w = .ok c1) : c1.Stack = c.Stack := by
  simp [dispatch, shr12_eq, hop] at h
  split_ifs at h
  all_goals first
    | exact i_mvIndexToFontChar_Stack _ _ _ h
    | exact i_binaryCodedDecimalConversion_Stack _ _ _ h
    | exact i_storeMem_Stack _ _ _ h
    | exact i_loadMem_Stack _ _ _ h
    | (injection h with h
       rw [← h]
       try first
         | rfl
         | exact i_timer_Stack _ _ _
         | exact i_addToIndex_Stack _ _
         | exact i_getKey_Stack _ _ _)

set_option maxHeartbeats 2000000 in
theorem dispatch_Stack (env : Env) (c c1 : Machine) (w : Nat) (hw : w < 65536)
    (h2 : w / 4096 ≠ 2) (h0 : w / 4096 = 0 → w = 0x00E0)
    (h : dispatch env c w = .ok c1) : c1.Stack = c.Stack := by
  have hk : w / 4096 < 16 := by omega
  interval_cases hop : w / 4096
  · have hw0 := h0 rfl
    subst hw0
    simp [dispatch] at h
    rw [← h]; rfl
  · simp [dispatch, shr12_eq, hop] at h
    rw [← h]; rfl
  · exact absurd rfl h2
  · simp [dispatch, shr12_eq, hop] at h
    rw [← h]; exact i_skipIfEqualNN_Stack _ _
  · simp [dispatch, shr12_eq, hop] at h
    rw [← h]; exact i_skipIfNotEqualNN_Stack _ _
  · simp [dispatch, shr12_eq, hop] at h
    rw [← h]; exact i_skipIfEqualReg_Stack _ _
  · simp [dispatch, shr12_eq, hop] at h
    rw [← h]; rfl
  · simp [dispatch, shr12_eq, hop] at h
    rw [← h]; rfl
  · simp [dispatch, shr12_eq, hop] at h
    rw [← h]; exact i_aluOp_Stack _ _
  · simp [dispatch, shr12_eq, hop] at h
    rw [← h]; exact i_skipIfNotEqualReg_Stack _ _
  · simp [dispatch, shr12_eq, hop] at h
    rw [← h]; rfl
  · simp [dispatch, shr12_eq, hop] at h
    rw [← h]; rfl
  · simp [dispatch, shr12_eq, hop] at h
    rw [← h]; rfl
  · simp [dispatch, shr12_eq, hop] at h
    exact i_display_Stack _ _ _ h
  · simp [dispatch, shr12_eq, hop] at h
    exact i_skipIfKeyDown_Stack _ _ _ _ h
  · exact dispatch_F_Stack env c c1 w hop h

theorem execute_other_Stack (env : Env) (c c1 : Machine) (w : Nat) (hw : w < 65536)
    (h2 : w / 4096 ≠ 2) (hret : w ≠ 0x00EE) (h : execute env c w = .ok (c1, true)) :
    c1.Stack = c.Stack := by
  cases hv : isValidInstruction w with
  | false =>
    rw [execute_invalid env c w hv] at h
    injection h with h
    injection h with _ hb
    exact absurd hb (by simp)
  | true =>
    have h0 : w / 4096 = 0 → w = 0x00E0 := by
      intro hz
      have ha := (isValidInstruction_arith w hw).mp hv
      simp only [hz, List.mem_cons, List.mem_singleton, List.not_mem_nil, or_false] at ha
      omega
    rw [execute_valid env c w hv] at h
    cases hd : dispatch env { c with Pc := (c.Pc + 2) % 65536 } w with
    | error e => rw [hd] at h; exact absurd h (by simp)
    | ok a =>
      rw [hd] at h
      simp only at h
      injection h with h
      injection h with h
      rw [← h, dispatch_Stack env _ _ w hw h2 h0 hd]

theorem execute_call_inv (env : Env) (c c1 : Machine) (w : Nat) (hw : w < 65536)
    (hop : w / 4096 = 2) (h : execute env c w = .ok (c1, true)) :
    c.Stack.stackPtr ≤ 15 ∧
    c1.Stack = { data := setAt c.Stack.data c.Stack.stackPtr ((c.Pc + 2) % 65536),
                 stackPtr := (c.Stack.stackPtr + 255) % 256 } := by
  rw [execute_subroutine env c w hw hop] at h
  by_cases hp : c.Stack.stackPtr ≤ 15
  · rw [i_subroutine_ok _ _ (by simpa using hp)] at h
    simp only at h
    injection h with h
    injection h with h
    exact ⟨hp, by rw [← h]⟩
  · have hf : push c.Stack ((c.Pc + 2) % 65536) = .error .indexOutOfRange :=
      push_fault _ _ (by omega)
    simp only [i_subroutine, hf, bind, Except.bind] at h
    exact absurd h (by simp)

theorem execute_ret_inv (env : Env) (c c1 : Machine)
    (h : execute env c 0x00EE = .ok (c1, true)) :
    (c.Stack.stackPtr + 1) % 256 ≤ 15 ∧
    c1.Stack = { c.Stack with stackPtr := (c.Stack.stackPtr + 1) % 256 } ∧
    c1.Pc = c.Stack.data ((c.Stack.stackPtr + 1) % 256) := by
  rw [execute_ret env c] at h
  by_cases hp : (c.Stack.stackPtr + 1) % 256 ≤ 15
  · rw [i_ret_ok _ (by simpa using hp)] at h
    simp only at h
    injection h with h
    injection h with h
    exact ⟨hp, by rw [← h], by rw [← h]⟩
  · have hf : pop c.Stack = .error .indexOutOfRange := pop_fault _ (by omega)
    simp only [i_ret, hf, bind, Except.bind] at h
    exact absurd h (by simp)

/-- A balanced run gives back the stack pointer it started with and every
stack entry above that pointer. -/
theorem balancedRun_Stack (c c' : Machine) (h : BalancedRun c c') :
    c'.Stack.stackPtr = c.Stack.stackPtr ∧
    ∀ q, (c.Stack.stackPtr + 1) % 256 ≤ q → c'.Stack.data q = c.Stack.data q := by
  induction h with
  | done c => exact ⟨rfl, fun _ _ => rfl⟩
  | other env w c c1 c2 hw h2 hret he _ ih =>
    have hs := execute_other_Stack env c c1 w hw h2 hret he
    rw [hs] at ih
    exact ih
  | call env1 env2 w c c1 c2 c3 c4 hw hop he1 _ he2 _ ih1 ih2 =>
    obtain ⟨hp, hs1⟩ := execute_call_inv env1 c c1 w hw hop he1
    obtain ⟨hp2, hs3, -⟩ := execute_ret_inv env2 c2 c3 he2
    rw [hs1] at ih1
    simp only at ih1
    obtain ⟨i1, i2⟩ := ih1
    rw [hs3] at ih2
    simp only at ih2
    obtain ⟨j1, j2⟩ := ih2
    rw [i1] at j1 j2 hp2
    have hidx : ((c.Stack.stackPtr + 255) % 256 + 1) % 256 = c.Stack.stackPtr := by omega
    rw [hidx] at j1 j2 i2
    refine ⟨j1, fun q hq => ?_⟩
    have hq1 : (c.Stack.stackPtr + 1) % 256 = c.Stack.stackPtr + 1 := by omega
    rw [j2 q hq, i2 q (by omega)]
    have : q ≠ c.Stack.stackPtr := by omega
    simp [setAt, this]

/-! ## C13: the call stack is last-in-first-out, and `00EE` undoes `2NNN` -/

/-- C13: from the initial stack (pointer 15), any k <= 16 pushes followed by
k pops succeed, return the pushed addresses in reverse order and leave the
pointer at 15.  Executing `2NNN` fetched at address A, in a machine whose
stack still has room (pointer in 0..15), succeeds, pushes A + 2 and sets PC to
NNN; after any run of executed instructions in which calls and returns are
balanced, `00EE` succeeds, sets PC to A + 2 and leaves the stack pointer and
every entry above it as they were before the call. -/
theorem call_stack_lifo (env : Env) (as : List Nat) (c : Machine) (NNN : Nat)
    (hk : as.length ≤ 16) (hN : NNN ≤ 0xFFF) (hA : c.Pc + 2 < 65536)
    (hp : c.Stack.stackPtr ≤ 15) :
    (∃ s1, pushAll initialStack as = .ok s1 ∧
      ∃ s2, popN as.length s1 = .ok (s2, as.reverse) ∧ s2.stackPtr = 15) ∧
    (∃ c1, execute env c (0x2000 + NNN) = .ok (c1, true) ∧ c1.Pc = NNN ∧
      c1.Stack.stackPtr = (c.Stack.stackPtr + 255) % 256 ∧
      c1.Stack.data c.Stack.stackPtr = c.Pc + 2 ∧
      ∀ c2 : Machine, BalancedRun c1 c2 → ∀ env2 : Env,
        ∃ c3, execute env2 c2 0x00EE = .ok (c3, true) ∧ c3.Pc = c.Pc + 2 ∧
          c3.Stack.stackPtr = c.Stack.stackPtr ∧
          ∀ q, c.Stack.stackPtr < q → c3.Stack.data q = c.Stack.data q) := by
  constructor
  · obtain ⟨s1, h1, s2, h2, h3, -⟩ :=
      pushAll_popN as initialStack (by decide) (by
        have : initialStack.stackPtr = 15 := rfl
        omega)
    exact ⟨s1, h1, s2, h2, h3⟩
  · have hw : 0x2000 + NNN < 65536 := by omega
    have hpc : (c.Pc + 2) % 65536 = c.Pc + 2 := by omega
    have he := execute_subroutine env c _ hw (by omega)
    rw [i_subroutine_ok _ _ (by simpa using hp)] at he
    simp only [hpc] at he
    refine ⟨_, he, ?_, rfl, ?_, ?_⟩
    · simp only
      omega
    · simp [setAt]
    · intro c2 hb env2
      obtain ⟨b1, b2⟩ := balancedRun_Stack _ _ hb
      simp only at b1 b2
      have hidx : ((c.Stack.stackPtr + 255) % 256 + 1) % 256 = c.Stack.stackPtr := by omega
      rw [hidx] at b2
      have hidx2 : (c2.Stack.stackPtr + 1) % 256 = c.Stack.stackPtr := by
        rw [b1]; exact hidx
      have hr := execute_ret env2 c2
      rw [i_ret_ok _ (by simp only; omega)] at hr
      simp only [hidx2] at hr
      refine ⟨_, hr, ?_, rfl, ?_⟩
      · simp only
        rw [b2 _ (le_refl _)]
        simp [setAt]
      · intro q hq
        simp only
        rw [b2 q (by omega)]
        have : q ≠ c.Stack.stackPtr := by omega
        simp [setAt, this]

/-- C13 applied to two pushes on the initial stack, and to the executed
sequence `2300`, `2400`, `00EE`, `00EE` on a freshly loaded machine
(PC = 0x200): the inner return goes to 0x302, the outer one to 0x202 with the
stack pointer back at 15. -/
theorem call_stack_lifo_witness :
    (∃ s1, pushAll initialStack [0x202, 0x300] = .ok s1 ∧
      ∃ s2, popN 2 s1 = .ok (s2, [0x300, 0x202]) ∧ s2.stackPtr = 15) ∧
    (∃ c1 c2 c3 c4, execute quietEnv (loaded []) 0x2300 = .ok (c1, true) ∧
      execute quietEnv c1 0x2400 = .ok (c2, true) ∧
      execute quietEnv c2 0x00EE = .ok (c3, true) ∧ c3.Pc = 0x302 ∧
      execute quietEnv c3 0x00EE = .ok (c4, true) ∧ c4.Pc = 0x202 ∧
      c4.Stack.stackPtr = 15) := by
  obtain ⟨hl, c1, he1, hpc1, hptr1, -, hall⟩ :=
    call_stack_lifo quietEnv [0x202, 0x300] (loaded []) 0x300 (by decide) (by decide)
      (by decide) (by decide)
  have hp1 : c1.Stack.stackPtr = 14 := by rw [hptr1]; decide
  have he2 := execute_subroutine quietEnv c1 0x2400 (by decide) (by decide)
  rw [i_subroutine_ok _ _ (by simp only; omega)] at he2
  have he3 := execute_ret quietEnv
    { c1 with
      Pc := 0x2400 % 4096
      Stack := { data := setAt c1.Stack.data c1.Stack.stackPtr ((c1.Pc + 2) % 65536),
                 stackPtr := (c1.Stack.stackPtr + 255) % 256 } }
  rw [i_ret_ok _ (by simp only; omega)] at he3
  simp only at he2 he3
  have hb := BalancedRun.call quietEnv quietEnv 0x2400 c1 _ _ _ _ (by decide) (by decide)
    he2 (BalancedRun.done _) he3 (BalancedRun.done _)
  obtain ⟨c4, he4, hpc4, hptr4, -⟩ := hall _ hb quietEnv
  refine ⟨hl, c1, _, _, c4, he1, he2, he3, ?_, he4, hpc4, hptr4⟩
  simp only [hp1, hpc1]
  simp [setAt]

/-! ## Memory accesses and their bounds -/

theorem execute_jump (env : Env) (c : Machine) (w : Nat) (hw : w < 65536)
    (hop : w / 4096 = 1) :
    execute env c w = .ok (i_jump { c with Pc := (c.Pc + 2) % 65536 } w, true) := by
  have hv : isValidInstruction w = true := by
    rw [isValidInstruction_arith w hw]
    simp [hop]
  rw [execute_valid env c w hv]
  simp [dispatch, shr12_eq, hop]

theorem fetch_fault (c : Machine) (hpc : c.Pc < 65536) (h : c.Pc + 1 > 4095) :
    fetch c = .error .indexOutOfRange := by
  by_cases h0 : c.Pc < 4096
  · have h1 : ¬ (c.Pc + 1) % 65536 < 4096 := by omega
    simp only [fetch, readMem, c_MEM_LEN, bind, Except.bind]
    simp only [h0, if_true, h1, if_false]
  · simp only [fetch, readMem, c_MEM_LEN, bind, Except.bind]
    simp only [h0, if_false]

theorem i_binaryCodedDecimalConversion_fault (c : Machine) (x : Nat)
    (hI : c.Index < 65536) (h : c.Index + 2 > 4095) :
    i_binaryCodedDecimalConversion c x = .error .indexOutOfRange := by
  have e0 : (c.Index + 0) % 65536 = c.Index := by omega
  simp only [i_binaryCodedDecimalConversion, writeMem, c_MEM_LEN, bind, Except.bind, e0]
  by_cases h0 : c.Index < 4096
  · simp only [h0, if_true]
    by_cases h1 : (c.Index + 1) % 65536 < 4096
    · have h2 : ¬ (c.Index + 2) % 65536 < 4096 := by omega
      simp only [h1, if_true, h2, if_false]
    · simp only [h1, if_false]
  · simp only [h0, if_false]

theorem storeMemLoop_fault (rem : Nat) :
    ∀ (i : Nat) (c : Machine), 1 ≤ rem → i + rem ≤ 255 → c.Index < 4096 →
      c.Index + i + rem > 4096 → storeMemLoop rem i c = .error .indexOutOfRange := by
  induction rem with
  | zero => intro i c h; omega
  | succ n ih =>
    intro i c _ h2 h3 h4
    have ha : (c.Index + i) % 65536 = c.Index + i := by omega
    have hi : (i + 1) % 256 = i + 1 := by omega
    simp only [storeMemLoop, writeMem, c_MEM_LEN, bind, Except.bind, ha, hi]
    by_cases hb : c.Index + i < 4096
    · simp only [hb, if_true]
      exact ih (i + 1) _ (by omega) (by omega) (by simpa using h3) (by simp only; omega)
    · simp only [hb, if_false]

theorem loadMemLoop_fault (rem : Nat) :
    ∀ (i : Nat) (c : Machine), 1 ≤ rem → i + rem ≤ 255 → c.Index < 4096 →
      c.Index + i + rem > 4096 → loadMemLoop rem i c = .error .indexOutOfRange := by
  induction rem with
  | zero => intro i c h; omega
  | succ n ih =>
    intro i c _ h2 h3 h4
    have ha : (c.Index + i) % 65536 = c.Index + i := by omega
    have hi : (i + 1) % 256 = i + 1 := by omega
    simp only [loadMemLoop, readMem, c_MEM_LEN, bind, Except.bind, ha, hi]
    by_cases hb : c.Index + i < 4096
    · simp only [hb, if_true]
      exact ih (i + 1) _ (by omega) (by omega) (by simpa using h3) (by simp only; omega)
    · simp only [hb, if_false]

theorem i_storeMem_fault (c : Machine) (x : Nat) (hx : x < 16) (hI : c.Index < 65536)
    (h : c.Index + x > 4095) : i_storeMem c x = .error .indexOutOfRange := by
  have hl : storeMemLoop (x + 1) 0 c = .error .indexOutOfRange := by
    by_cases h0 : c.Index < 4096
    · exact storeMemLoop_fault (x + 1) 0 c (by omega) (by omega) h0 (by omega)
    · have ha : (c.Index + 0) % 65536 = c.Index := by omega
      simp only [storeMemLoop, writeMem, c_MEM_LEN, bind, Except.bind, ha]
      simp only [h0, if_false]
  simp only [i_storeMem, hl, bind, Except.bind]

theorem i_loadMem_fault (c : Machine) (x : Nat) (hx : x < 16) (hI : c.Index < 65536)
    (h : c.Index + x > 4095) : i_loadMem c x = .error .indexOutOfRange := by
  have hl : loadMemLoop (x + 1) 0 c = .error .indexOutOfRange := by
    by_cases h0 : c.Index < 4096
    · exact loadMemLoop_fault (x + 1) 0 c (by omega) (by omega) h0 (by omega)
    · have ha : (c.Index + 0) % 65536 = c.Index := by omega
      simp only [loadMemLoop, readMem, c_MEM_LEN, bind, Except.bind, ha]
      simp only [h0, if_false]
  simp only [i_loadMem, hl, bind, Except.bind]

theorem i_display_fault (c : Machine) (w : Nat) (hN : 1 ≤ w % 16) (hI : c.Index < 65536)
    (h : c.Index > 4095) : i_display c w = .error .indexOutOfRange := by
  have hy : c.V (w / 16 % 16) % 32 < 32 := Nat.mod_lt _ (by decide)
  have e2 : w / 16 % 16 % 256 = w / 16 % 16 := by omega
  have e3 : w % 16 % 256 = w % 16 := by omega
  obtain ⟨n, hn⟩ : ∃ n, w % 16 = n + 1 := ⟨w % 16 - 1, by omega⟩
  have hy0 : ¬ (c.V (w / 16 % 16) % 32 + 0) % 256 ≥ 32 := by omega
  have ha : (c.Index + 0) % 65536 = c.Index := by omega
  have hb : ¬ c.Index < 4096 := by omega
  have hl : ∀ x, displayLoop c x (c.V (w / 16 % 16) % 32) (w % 16) 0 (c.Rl.display, false)
      = .error .indexOutOfRange := by
    intro x
    rw [hn]
    simp only [displayLoop, c_SCREEN_HEIGHT_PIXEL, hy0, if_false, readMem, c_MEM_LEN, ha,
      bind, Except.bind]
    simp only [hb, if_false]
  simp only [i_display, shr8_eq, shr4_eq, fieldN_eq, e2, e3, c_SCREEN_WIDTH_PIXEL,
    c_SCREEN_HEIGHT_PIXEL, bind, Except.bind, hl]

theorem fetch_succeeds (c : Machine) (h : c.Pc + 1 ≤ 4095) : ∃ w, fetch c = .ok w := by
  have h0 : c.Pc < 4096 := by omega
  have h1 : (c.Pc + 1) % 65536 < 4096 := by omega
  refine ⟨((c.Memory c.Pc <<< 8) % 65536 + c.Memory ((c.Pc + 1) % 65536)) % 65536, ?_⟩
  simp only [fetch, readMem, c_MEM_LEN, bind, Except.bind, pure, Except.pure]
  simp only [h0, if_true, h1]

/-! ## C14: memory accesses are not kept inside 0..4095 -/

/-- C14 fails as stated: the freshly loaded program `1FFF` runs one cycle,
which leaves PC = 0xFFF, and the next fetch addresses PC + 1 = 4096 and stops
with an index-out-of-range fault. -/
theorem memory_access_counterexample :
    ∃ c1, runCycle quietEnv (loaded [0x1F, 0xFF]) = .ok c1 ∧ c1.Pc = 0xFFF ∧
      (c1.Pc + 1) % 65536 = 4096 ∧ fetch c1 = .error .indexOutOfRange := by
  have f1 : fetch (loaded [0x1F, 0xFF]) = .ok 0x1FFF :=
    fetch_ok (loaded [0x1F, 0xFF]) (by decide) (by decide) (by decide)
  have e1 := execute_jump quietEnv (loaded [0x1F, 0xFF]) 0x1FFF (by decide) (by decide)
  have r1 := runCycle_of_execute quietEnv _ _ _ f1 e1
  have hp : (i_jump { loaded [0x1F, 0xFF] with
      Pc := ((loaded [0x1F, 0xFF]).Pc + 2) % 65536 } 0x1FFF).Pc = 0xFFF := by decide
  refine ⟨_, r1, hp, ?_, ?_⟩
  · rw [hp]
  · exact fetch_fault _ (by rw [hp]; decide) (by rw [hp]; decide)

/-- C14, as amended: the instructions neither mask nor validate their memory
addresses.  In any machine with 16-bit PC and Index: `fetch` succeeds when
PC + 1 <= 4095 and otherwise stops with an index-out-of-range fault; `DXYN`
succeeds when Index + N <= 4096 and stops with that fault when N >= 1 and
Index > 4095; `FX33` succeeds when Index + 2 <= 4095 and otherwise stops with
that fault; `FX55` and `FX65` succeed when Index + X <= 4095 and otherwise stop
with that fault. -/
theorem memory_access_bounds (env : Env) (c : Machine) (X Y N : Nat) (hX : X < 16)
    (hY : Y < 16) (hN : N < 16) (hpc : c.Pc < 65536) (hI : c.Index < 65536) :
    ((c.Pc + 1 ≤ 4095 → ∃ w, fetch c = .ok w) ∧
      (c.Pc + 1 > 4095 → fetch c = .error .indexOutOfRange)) ∧
    ((c.Index + N ≤ 4096 →
        ∃ c', execute env c (0xD000 + 0x100 * X + 0x10 * Y + N) = .ok (c', true)) ∧
      (1 ≤ N → c.Index > 4095 →
        execute env c (0xD000 + 0x100 * X + 0x10 * Y + N) = .error .indexOutOfRange)) ∧
    ((c.Index + 2 ≤ 4095 → ∃ c', execute env c (0xF033 + 0x100 * X) = .ok (c', true)) ∧
      (c.Index + 2 > 4095 →
        execute env c (0xF033 + 0x100 * X) = .error .indexOutOfRange)) ∧
    ((c.Index + X ≤ 4095 → ∃ c', execute env c (0xF055 + 0x100 * X) = .ok (c', true)) ∧
      (c.Index + X > 4095 →
        execute env c (0xF055 + 0x100 * X) = .error .indexOutOfRange)) ∧
    ((c.Index + X ≤ 4095 → ∃ c', execute env c (0xF065 + 0x100 * X) = .ok (c', true)) ∧
      (c.Index + X > 4095 →
        execute env c (0xF065 + 0x100 * X) = .error .indexOutOfRange)) := by
  refine ⟨⟨fetch_succeeds c, fetch_fault c hpc⟩, ⟨?_, ?_⟩, ⟨?_, ?_⟩, ⟨?_, ?_⟩, ⟨?_, ?_⟩⟩
  · intro h
    obtain ⟨c', he, -⟩ := execute_display_ok env c X Y N hX hY hN h
    exact ⟨c', he⟩
  · intro h1 h2
    have hw : 0xD000 + 0x100 * X + 0x10 * Y + N < 65536 := by omega
    have fN : (0xD000 + 0x100 * X + 0x10 * Y + N) % 16 = N := by omega
    rw [execute_display env c _ hw (by omega),
      i_display_fault _ _ (by rw [fN]; exact h1) (by simpa using hI) (by simpa using h2)]
  · intro h
    have hw : 0xF033 + 0x100 * X < 65536 := by omega
    have he := execute_bcd env c _ hw (by omega) (by omega)
    rw [i_binaryCodedDecimalConversion_ok _ _ (by simpa using h)] at he
    exact ⟨_, he⟩
  · intro h
    have hw : 0xF033 + 0x100 * X < 65536 := by omega
    rw [execute_bcd env c _ hw (by omega) (by omega),
      i_binaryCodedDecimalConversion_fault _ _ (by simpa using hI) (by simpa using h)]
  · intro h
    have hw : 0xF055 + 0x100 * X < 65536 := by omega
    have fX : (0xF055 + 0x100 * X) / 256 % 16 = X := by omega
    obtain ⟨c1, h1, -⟩ :=
      i_storeMem_ok { c with Pc := (c.Pc + 2) % 65536 } X hX (by simpa using h)
    refine ⟨c1, ?_⟩
    rw [execute_storeMem env c _ hw (by omega) (by omega), fX, h1]
  · intro h
    have hw : 0xF055 + 0x100 * X < 65536 := by omega
    have fX : (0xF055 + 0x100 * X) / 256 % 16 = X := by omega
    rw [execute_storeMem env c _ hw (by omega) (by omega), fX,
      i_storeMem_fault _ X hX (by simpa using hI) (by simpa using h)]
  · intro h
    have hw : 0xF065 + 0x100 * X < 65536 := by omega
    have fX : (0xF065 + 0x100 * X) / 256 % 16 = X := by omega
    obtain ⟨c1, h1, -⟩ :=
      i_loadMem_ok { c with Pc := (c.Pc + 2) % 65536 } X hX (by simpa using h)
    refine ⟨c1, ?_⟩
    rw [execute_loadMem env c _ hw (by omega) (by omega), fX, h1]
  · intro h
    have hw : 0xF065 + 0x100 * X < 65536 := by omega
    have fX : (0xF065 + 0x100 * X) / 256 % 16 = X := by omega
    rw [execute_loadMem env c _ hw (by omega) (by omega), fX,
      i_loadMem_fault _ X hX (by simpa using hI) (by simpa using h)]

/-- C14 applied to the freshly loaded empty program: its first fetch, at
PC = 0x200, succeeds. -/
theorem memory_access_bounds_witness : ∃ w, fetch (loaded []) = .ok w :=
  (memory_access_bounds quietEnv (loaded []) 0 0 1 (by decide) (by decide) (by decide)
    (by decide) (by decide)).1.1 (by decide)

/-! ## C15: `FX0A` polls the keyboard -/

theorem execute_getKey (env : Env) (c : Machine) (w : Nat) (hw : w < 65536)
    (hop : w / 4096 = 15) (hcmd : w % 256 = 0x0A) :
    execute env c w =
      .ok (i_getKey env { c with Pc := (c.Pc + 2) % 65536 } (w / 256 % 16), true) := by
  have hv : isValidInstruction w = true := by
    rw [isValidInstruction_arith w hw]
    simp [hop, hcmd]
  have hx : w / 256 % 16 % 256 = w / 256 % 16 := by omega
  rw [execute_valid env c w hv]
  simp [dispatch, shr12_eq, shr8_eq, fieldN_eq, fieldNN_eq, hop, hcmd, hx]

/-- C15: for every `FX0A` and every machine with a 16-bit PC: if the latest
key pressed is not a mapped key, or is not held down, `execute` returns true
and the machine is exactly the machine before the call, PC included; if it is
a mapped key with value k that is held down, `execute` returns true, VX = k,
PC is the old PC plus 2 (as a 16-bit value) and nothing else changes. -/
theorem getKey_poll (env : Env) (c : Machine) (X : Nat) (hX : X < 16)
    (hpc : c.Pc < 65536) :
    ((v_KEY_TO_IND env.getKeyPressed = none ∨ env.isKeyDown env.getKeyPressed = false) →
      execute env c (0xF00A + 0x100 * X) = .ok (c, true)) ∧
    (∀ k, v_KEY_TO_IND env.getKeyPressed = some k →
      env.isKeyDown env.getKeyPressed = true →
      ∃ c', execute env c (0xF00A + 0x100 * X) = .ok (c', true) ∧
        c'.V X = k ∧ c'.Pc = (c.Pc + 2) % 65536 ∧
        c' = { c with V := setAt c.V X k, Pc := (c.Pc + 2) % 65536 }) := by
  have hw : 0xF00A + 0x100 * X < 65536 := by omega
  have fX : (0xF00A + 0x100 * X) / 256 % 16 = X := by omega
  have he := execute_getKey env c _ hw (by omega) (by omega)
  rw [fX] at he
  have hback : ((c.Pc + 2) % 65536 + 65534) % 65536 = c.Pc := by omega
  constructor
  · intro hno
    rw [he]
    have hc : i_getKey env { c with Pc := (c.Pc + 2) % 65536 } X = c := by
      rcases hno with h | h
      · simp only [i_getKey, h, hback]
      · cases hk : v_KEY_TO_IND env.getKeyPressed with
        | none => simp only [i_getKey, hk, hback]
        | some k => simp [i_getKey, hk, h, hback]
    rw [hc]
  · intro k hk hdown
    have hc : i_getKey env { c with Pc := (c.Pc + 2) % 65536 } X
        = { c with V := setAt c.V X k, Pc := (c.Pc + 2) % 65536 } := by
      simp only [i_getKey, hk, hdown, if_true]
    rw [hc] at he
    exact ⟨_, he, by simp [setAt], rfl, rfl⟩

/-- C15 applied to `F00A` on a freshly loaded machine: with no key pressed the
machine is unchanged, and with the key mapped to 5 held down V0 = 5 and
PC = 0x202. -/
theorem getKey_poll_witness :
    execute quietEnv (loaded []) (0xF00A + 0x100 * 0) = .ok (loaded [], true) ∧
    ∃ c', execute keyWEnv (loaded []) (0xF00A + 0x100 * 0) = .ok (c', true) ∧
      c'.V 0 = 5 ∧ c'.Pc = 0x202 := by
  refine ⟨(getKey_poll quietEnv (loaded []) 0 (by decide) (by decide)).1
    (Or.inl (by decide)), ?_⟩
  obtain ⟨c', he, hv, hp, -⟩ :=
    (getKey_poll keyWEnv (loaded []) 0 (by decide) (by decide)).2 5 (by decide)
      (by decide)
  exact ⟨c', he, hv, hp⟩

/-! ## C16: `BNNN`, jump with offset -/

theorem execute_jumpWithOffset (env : Env) (c : Machine) (w : Nat) (hw : w < 65536)
    (hop : w / 4096 = 0xB) :
    execute env c w =
      .ok (i_jumpWithOffset { c with Pc := (c.Pc + 2) % 65536 } w, true) := by
  have hv : isValidInstruction w = true := by
    rw [isValidInstruction_arith w hw]
    simp [hop]
  rw [execute_valid env c w hv]
  simp [dispatch, shr12_eq, hop]

/-- C16: for NNN in 0..0xFFF and byte-valued registers, executing `BNNN`
succeeds and changes nothing but PC, which becomes NNN + V[(NNN >> 8) & 0xF]
when `JumpWeird` is set and NNN + V0 when it is clear. -/
theorem jumpWithOffset_pc (env : Env) (c : Machine) (NNN : Nat) (hN : NNN ≤ 0xFFF)
    (hV : ∀ r, r < 16 → c.V r < 256) :
    (c.Config.JumpWeird = true →
      execute env c (0xB000 + NNN)
        = .ok ({ c with Pc := NNN + c.V ((NNN >>> 8) &&& 0xF) }, true)) ∧
    (c.Config.JumpWeird = false →
      execute env c (0xB000 + NNN) = .ok ({ c with Pc := NNN + c.V 0 }, true)) := by
  have hw : 0xB000 + NNN < 65536 := by omega
  have he := execute_jumpWithOffset env c _ hw (by omega)
  have f1 : (0xB000 + NNN) % 4096 = NNN := by omega
  have f2 : NNN / 256 % 16 = NNN / 256 := by omega
  have h0 := hV 0 (by decide)
  have h1 := hV (NNN / 256) (by omega)
  have g0 : (NNN + c.V 0) % 65536 = NNN + c.V 0 := by omega
  have g1 : (NNN + c.V (NNN / 256)) % 65536 = NNN + c.V (NNN / 256) := by omega
  constructor
  · intro hq
    rw [he]
    simp only [i_jumpWithOffset, fieldNNN_eq, f1, shr8_eq, fieldN_eq, f2, hq, if_true, g1]
  · intro hq
    rw [he]
    simp [i_jumpWithOffset, fieldNNN_eq, f1, hq, g0]

/-- C16 applied to `B300` on a freshly loaded machine (V0 = 0, `JumpWeird`
clear): PC becomes 0x300. -/
theorem jumpWithOffset_pc_witness :
    execute quietEnv (loaded []) (0xB000 + 0x300)
      = .ok ({ loaded [] with Pc := 0x300 + (loaded []).V 0 }, true) :=
  (jumpWithOffset_pc quietEnv (loaded []) 0x300 (by decide)
    (fun _ _ => Nat.zero_lt_succ 255)).2 rfl

/-! ## C17: `FX1E`, add to Index -/

theorem execute_addToIndex (env : Env) (c : Machine) (w : Nat) (hw : w < 65536)
    (hop : w / 4096 = 15) (hcmd : w % 256 = 0x1E) :
    execute env c w =
      .ok (i_addToIndex { c with Pc := (c.Pc + 2) % 65536 } (w / 256 % 16), true) := by
  have hv : isValidInstruction w = true := by
    rw [isValidInstruction_arith w hw]
    simp [hop, hcmd]
  have hx : w / 256 % 16 % 256 = w / 256 % 16 := by omega
  rw [execute_valid env c w hv]
  simp [dispatch, shr12_eq, shr8_eq, fieldN_eq, fieldNN_eq, hop, hcmd, hx]

/-- C17: executing `FX1E` succeeds and sets Index to (old Index + VX) mod 2^16,
with no 12-bit masking; when `AddToIndexOverflow` is set VF becomes 1 if the
new Index > 0xFFF and 0 otherwise and no other register changes; when it is
clear no register changes. -/
theorem addToIndex_index (env : Env) (c : Machine) (X : Nat) (hX : X < 16) :
    (c.Config.AddToIndexOverflow = true →
      ∃ c', execute env c (0xF01E + 0x100 * X) = .ok (c', true) ∧
        c'.Index = (c.Index + c.V X) % 65536 ∧
        c'.V 0xF = (if (c.Index + c.V X) % 65536 > 0xFFF then 1 else 0) ∧
        ∀ r, r ≠ 0xF → c'.V r = c.V r) ∧
    (c.Config.AddToIndexOverflow = false →
      ∃ c', execute env c (0xF01E + 0x100 * X) = .ok (c', true) ∧
        c'.Index = (c.Index + c.V X) % 65536 ∧ c'.V = c.V) := by
  have hw : 0xF01E + 0x100 * X < 65536 := by omega
  have fX : (0xF01E + 0x100 * X) / 256 % 16 = X := by omega
  have he := execute_addToIndex env c _ hw (by omega) (by omega)
  rw [fX] at he
  constructor
  · intro hq
    refine ⟨_, he, ?_, ?_, ?_⟩
    · by_cases hgt : (c.Index + c.V X) % 65536 > 0xFFF <;>
        simp [i_addToIndex, hq, setFlag, hgt]
    · by_cases hgt : (c.Index + c.V X) % 65536 > 0xFFF <;>
        simp [i_addToIndex, hq, setFlag, setAt, hgt]
    · intro r hr
      by_cases hgt : (c.Index + c.V X) % 65536 > 0xFFF <;>
        simp [i_addToIndex, hq, setFlag, setAt, hgt, hr]
  · intro hq
    refine ⟨_, he, ?_, ?_⟩
    · simp [i_addToIndex, hq]
    · simp [i_addToIndex, hq]

/-- C17 applied to `F01E` on the machine with V0 = 156, Index = 0 and
`AddToIndexOverflow` clear. -/
theorem addToIndex_index_witness :
    ∃ c', execute quietEnv (machineWith regsV0_156 DefaultConfig) (0xF01E + 0x100 * 0)
        = .ok (c', true) ∧
      c'.Index = ((machineWith regsV0_156 DefaultConfig).Index
                    + (machineWith regsV0_156 DefaultConfig).V 0) % 65536 ∧
      c'.V = (machineWith regsV0_156 DefaultConfig).V :=
  (addToIndex_index quietEnv (machineWith regsV0_156 DefaultConfig) 0 (by decide)).2 rfl

/-! ## C18: key and font references above 0xF are fatal -/

theorem execute_skipIfKeyDown (env : Env) (c : Machine) (w : Nat) (hw : w < 65536)
    (hop : w / 4096 = 0xE) (hcmd : w % 256 = 0x9E ∨ w % 256 = 0xA1) :
    execute env c w =
      match i_skipIfKeyDown env { c with Pc := (c.Pc + 2) % 65536 } w with
      | .ok c1 => .ok (c1, true)
      | .error e => .error e := by
  have hv : isValidInstruction w = true := by
    rw [isValidInstruction_arith w hw]
    right; right; right; right; right; right; left
    exact ⟨hop, hcmd⟩
  rw [execute_valid env c w hv]
  simp [dispatch, shr12_eq, hop]

theorem i_skipIfKeyDown_exit (env : Env) (c : Machine) (w : Nat)
    (h : c.V (w / 256 % 16) > 0xF) : i_skipIfKeyDown env c w = .error .exit := by
  simp only [i_skipIfKeyDown, shr8_eq, fieldN_eq, h, if_true]

theorem i_skipIfKeyDown_ok (env : Env) (c : Machine) (w : Nat)
    (h : c.V (w / 256 % 16) ≤ 0xF) :
    i_skipIfKeyDown env c w =
      .ok (if env.isKeyDown (v_IND_TO_KEY.getD (c.V (w / 256 % 16)) 0)
            = decide (w % 256 = 0x9E)
           then { c with Pc := (c.Pc + 2) % 65536 } else c) := by
  have h1 : ¬ c.V (w / 256 % 16) > 0xF := by omega
  simp only [i_skipIfKeyDown, shr8_eq, fieldN_eq, fieldNN_eq, h1, if_false]
  split <;> rfl

theorem i_mvIndexToFontChar_exit (c : Machine) (x : Nat) (h : c.V x > 0xF) :
    i_mvIndexToFontChar c x = .error .exit := by
  simp only [i_mvIndexToFontChar, h, if_true]

/-- C18: executing `EX9E`, `EXA1` or `FX29` ends in `os.Exit(1)` exactly when
VX > 0xF.  When VX <= 0xF all three return true: `EX9E` changes only PC, to the
old PC + 4 if the key of VX is down and + 2 if not; `EXA1` changes only PC, to
the old PC + 2 if the key is down and + 4 if not; `FX29` changes only PC, to
the old PC + 2, and Index, to 0x50 + 5 VX (PC as a 16-bit value). -/
theorem key_font_range (env : Env) (c : Machine) (X : Nat) (hX : X < 16) :
    (execute env c (0xE09E + 0x100 * X) = .error .exit ↔ c.V X > 0xF) ∧
    (execute env c (0xE0A1 + 0x100 * X) = .error .exit ↔ c.V X > 0xF) ∧
    (execute env c (0xF029 + 0x100 * X) = .error .exit ↔ c.V X > 0xF) ∧
    (c.V X ≤ 0xF →
      execute env c (0xE09E + 0x100 * X) =
        .ok ({ c with Pc := if env.isKeyDown (v_IND_TO_KEY.getD (c.V X) 0) = true
                            then (c.Pc + 4) % 65536 else (c.Pc + 2) % 65536 }, true) ∧
      execute env c (0xE0A1 + 0x100 * X) =
        .ok ({ c with Pc := if env.isKeyDown (v_IND_TO_KEY.getD (c.V X) 0) = true
                            then (c.Pc + 2) % 65536 else (c.Pc + 4) % 65536 }, true) ∧
      execute env c (0xF029 + 0x100 * X) =
        .ok ({ c with Pc := (c.Pc + 2) % 65536, Index := 0x50 + 5 * c.V X }, true)) := by
  have hw1 : 0xE09E + 0x100 * X < 65536 := by omega
  have fX1 : (0xE09E + 0x100 * X) / 256 % 16 = X := by omega
  have fN1 : (0xE09E + 0x100 * X) % 256 = 0x9E := by omega
  have hw2 : 0xE0A1 + 0x100 * X < 65536 := by omega
  have fX2 : (0xE0A1 + 0x100 * X) / 256 % 16 = X := by omega
  have fN2 : (0xE0A1 + 0x100 * X) % 256 = 0xA1 := by omega
  have hw3 : 0xF029 + 0x100 * X < 65536 := by omega
  have fX3 : (0xF029 + 0x100 * X) / 256 % 16 = X := by omega
  have he1 := execute_skipIfKeyDown env c _ hw1 (by omega) (Or.inl fN1)
  have he2 := execute_skipIfKeyDown env c _ hw2 (by omega) (Or.inr fN2)
  have he3 := execute_fontChar env c _ hw3 (by omega) (by omega)
  rw [fX3] at he3
  have h4 : ((c.Pc + 2) % 65536 + 2) % 65536 = (c.Pc + 4) % 65536 := by omega
  have ok1 : c.V X ≤ 0xF → execute env c (0xE09E + 0x100 * X) =
      .ok ({ c with Pc := if env.isKeyDown (v_IND_TO_KEY.getD (c.V X) 0) = true
                          then (c.Pc + 4) % 65536 else (c.Pc + 2) % 65536 }, true) := by
    intro h
    rw [he1, i_skipIfKeyDown_ok env _ _ (by rw [fX1]; exact h), fX1, fN1]
    cases hk : env.isKeyDown (v_IND_TO_KEY.getD (c.V X) 0) <;> simp [hk, h4]
  have ok2 : c.V X ≤ 0xF → execute env c (0xE0A1 + 0x100 * X) =
      .ok ({ c with Pc := if env.isKeyDown (v_IND_TO_KEY.getD (c.V X) 0) = true
                          then (c.Pc + 2) % 65536 else (c.Pc + 4) % 65536 }, true) := by
    intro h
    rw [he2, i_skipIfKeyDown_ok env _ _ (by rw [fX2]; exact h), fX2, fN2]
    cases hk : env.isKeyDown (v_IND_TO_KEY.getD (c.V X) 0) <;> simp [hk, h4]
  have ok3 : c.V X ≤ 0xF → execute env c (0xF029 + 0x100 * X) =
      .ok ({ c with Pc := (c.Pc + 2) % 65536, Index := 0x50 + 5 * c.V X }, true) := by
    intro h
    rw [he3, i_mvIndexToFontChar_ok _ _ (by simpa using h)]
  refine ⟨⟨?_, ?_⟩, ⟨?_, ?_⟩, ⟨?_, ?_⟩, fun h => ⟨ok1 h, ok2 h, ok3 h⟩⟩
  · intro hex
    by_contra hle
    rw [ok1 (by omega)] at hex
    exact absurd hex (by simp)
  · intro h
    rw [he1, i_skipIfKeyDown_exit env _ _ (by rw [fX1]; exact h)]
  · intro hex
    by_contra hle
    rw [ok2 (by omega)] at hex
    exact absurd hex (by simp)
  · intro h
    rw [he2, i_skipIfKeyDown_exit env _ _ (by rw [fX2]; exact h)]
  · intro hex
    by_contra hle
    rw [ok3 (by omega)] at hex
    exact absurd hex (by simp)
  · intro h
    rw [he3, i_mvIndexToFontChar_exit _ _ (by simpa using h)]

/-- C18 applied with `X = 0` to the machine with V0 = 156: `E09E` ends in
`os.Exit(1)`. -/
theorem key_font_range_witness :
    execute quietEnv (machineWith regsV0_156 DefaultConfig) (0xE09E + 0x100 * 0)
      = .error .exit :=
  (key_font_range quietEnv (machineWith regsV0_156 DefaultConfig) 0 (by decide)).1.2
    (by decide)

/-! ## C19: the stack pointer wraps, the stack array does not -/

theorem pushAll_ptr (as : List Nat) :
    ∀ s : Stack, s.stackPtr ≤ 15 → as.length ≤ s.stackPtr + 1 →
      ∃ s1, pushAll s as = .ok s1 ∧
        s1.stackPtr = (s.stackPtr + 256 - as.length) % 256 := by
  induction as with
  | nil =>
    intro s hp _
    refine ⟨s, rfl, ?_⟩
    simp only [List.length_nil]
    omega
  | cons a rest ih =>
    intro s hp hlen
    have hpush := push_ok s a hp
    cases rest with
    | nil =>
      refine ⟨{ data := setAt s.data s.stackPtr a,
                stackPtr := (s.stackPtr + 255) % 256 }, ?_, ?_⟩
      · simp only [pushAll, hpush, bind, Except.bind]
      · simp only [List.length_singleton]
        omega
    | cons b rest' =>
      have hlen' : rest'.length + 2 ≤ s.stackPtr + 1 := by
        simpa [List.length_cons] using hlen
      obtain ⟨s1, h1, h2⟩ :=
        ih { data := setAt s.data s.stackPtr a, stackPtr := (s.stackPtr + 255) % 256 }
          (by simp only; omega) (by simp only [List.length_cons]; omega)
      refine ⟨s1, ?_, ?_⟩
      · simp only [pushAll, hpush, bind, Except.bind] at h1 ⊢
        exact h1
      · rw [h2]
        simp only [List.length_cons]
        omega

/-- C19 fails as stated: popping the initial stack (pointer 15) stops with an
index-out-of-range fault, and after sixteen pushes on the initial stack the
pointer is 255 and a seventeenth push stops with the same fault. -/
theorem stack_wrap_counterexample :
    pop initialStack = .error .indexOutOfRange ∧
    ∃ s1, pushAll initialStack (List.replicate 16 0x200) = .ok s1 ∧
      s1.stackPtr = 255 ∧ push s1 0x200 = .error .indexOutOfRange := by
  refine ⟨pop_fault initialStack (by decide), ?_⟩
  obtain ⟨s1, h1, h2⟩ :=
    pushAll_ptr (List.replicate 16 0x200) initialStack (by decide) (by decide)
  have h3 : s1.stackPtr = 255 := by
    rw [h2]
    decide
  exact ⟨s1, h1, h3, push_fault s1 _ (by omega)⟩

/-- C19, as amended: the call stack has no overflow or underflow guard and
the array index is not wrapped.  On any empty stack (pointer 15) `pop`
increments the pointer to 16 and stops with an index-out-of-range fault, and so
does `00EE` in a machine with that stack; after any sixteen pushes on an empty
stack the `uint8` pointer has wrapped to 255, and a seventeenth push stops with
an index-out-of-range fault. -/
theorem stack_bounds_fault (env : Env) (s : Stack) (as : List Nat) (a : Nat)
    (c : Machine) (hs : s.stackPtr = 15) (hlen : as.length = 16)
    (hc : c.Stack.stackPtr = 15) :
    pop s = .error .indexOutOfRange ∧
    execute env c 0x00EE = .error .indexOutOfRange ∧
    ∃ s1, pushAll s as = .ok s1 ∧ s1.stackPtr = 255 ∧
      push s1 a = .error .indexOutOfRange := by
  refine ⟨pop_fault s (by omega), ?_, ?_⟩
  · rw [execute_ret env c]
    have hp : pop c.Stack = .error .indexOutOfRange := pop_fault c.Stack (by omega)
    simp only [i_ret, hp, bind, Except.bind]
  · obtain ⟨s1, h1, h2⟩ := pushAll_ptr as s (by omega) (by omega)
    have h3 : s1.stackPtr = 255 := by
      rw [h2, hs, hlen]
    exact ⟨s1, h1, h3, push_fault s1 a (by omega)⟩

/-- C19 applied to the stack and machine returned by `NewChip8` and sixteen
return addresses. -/
theorem stack_bounds_fault_witness :
    pop initialStack = .error .indexOutOfRange ∧
    execute quietEnv (NewChip8 (NewRlWrapper 1)) 0x00EE = .error .indexOutOfRange ∧
    ∃ s1, pushAll initialStack (List.replicate 16 0x202) = .ok s1 ∧ s1.stackPtr = 255 ∧
      push s1 0x204 = .error .indexOutOfRange :=
  stack_bounds_fault quietEnv initialStack (List.replicate 16 0x202) 0x204
    (NewChip8 (NewRlWrapper 1)) (by decide) (by decide) (by decide)

/-! ## C20: the machine returned by `NewChip8` -/

/-- C20 fails as stated: in the machine returned by `NewChip8` the byte at
0x050 is 0, not the first font byte 0xF0, and the quirk configuration is not
one a caller supplied: `ShiftUseVY` is false, where `DefaultConfig` has true. -/
theorem newChip8_counterexample :
    (NewChip8 (NewRlWrapper 1)).Memory 0x50 = 0 ∧ v_FONT.getD 0 0 = 0xF0 ∧
    (NewChip8 (NewRlWrapper 1)).Config.ShiftUseVY = false ∧
    DefaultConfig.ShiftUseVY = true := by
  decide

/-- C20, as amended: the machine returned by `NewChip8` has every memory byte
zero, the font area included, all registers, the index register, the program
counter and both timers zero, an all-unlit pixel buffer, the stack pointer at
15, and every quirk flag false (`NewChip8` takes no configuration).  The font
table is put at 0x050..0x09F by the set-up of `Run`, whatever the program. -/
theorem newChip8_state (r : RlWrapper) (program : List Nat) :
    (∀ a, (NewChip8 r).Memory a = 0) ∧ (∀ k, (NewChip8 r).V k = 0) ∧
    (NewChip8 r).Index = 0 ∧ (NewChip8 r).Pc = 0 ∧
    (NewChip8 r).DelayTimer = 0 ∧ (NewChip8 r).SoundTimer = 0 ∧
    (∀ row col, (NewChip8 r).Rl.display row col = false) ∧
    (NewChip8 r).Stack.stackPtr = 15 ∧
    (NewChip8 r).Config = { ShiftUseVY := false, JumpWeird := false,
                            AddToIndexOverflow := false, MemChangeIndex := false } ∧
    (∀ k, k < 80 → (runSetup (NewChip8 r) program).Memory (0x50 + k) = v_FONT.getD k 0) :=
  ⟨fun _ => rfl, fun _ => rfl, rfl, rfl, rfl, rfl, fun _ _ => rfl, rfl, rfl,
    fun k hk => runSetup_font _ program k hk⟩

end Chip8
